import Mathlib

/-!
Verification of the pimdb two-stage IMDb ingestion engine
(`pimdb/database.py`) against its specification.

The Python source is shallowly embedded: pure helpers become Lean
functions, the stateful loops become explicit state passing, and Python
exceptions become `Except` values.  Machine floats only occur as parsed
decimal literals and are modelled as rationals; Python `int` is modelled
as `Int`.
-/

/-- Logical column types used by the staging tables
(`sqlalchemy` `Boolean`, `Integer`, `Float`, `String`). -/
inductive PyType where
  | bool
  | int
  | float
  | str
deriving DecidableEq, Repr

/-- A staging-table column as far as `typed_column_to_value_map` inspects
it: its name, its `python_type` and its nullability. -/
structure Col where
  name : String
  type : PyType
  nullable : Bool
deriving DecidableEq, Repr

/-- A typed Python value produced by the coercion step.  `vNone` is
Python `None`.  Note that for a non-nullable `float` column hit by the
null sentinel the code assigns the Python integer `0`, hence `vInt 0`
also occurs on float columns. -/
inductive Value where
  | vNone
  | vBool (b : Bool)
  | vInt (n : Int)
  | vFloat (q : Rat)
  | vStr (s : String)
deriving DecidableEq, Repr

/-- The exception kinds the embedded code can raise: the domain error
`PimdbError` (with its message), Python's builtin `ValueError` raised by
a failing `int()`/`float()` call (carrying the offending literal), and
Python's builtin `KeyError` raised by a failing `dict[...]` lookup. -/
inductive PyErr where
  | pimdbError (msg : String)
  | valueError (lit : String)
  | keyError (key : String)
deriving DecidableEq, Repr

/-- Association-list lookup; models Python `dict` access on the maps the
code builds (which never hold duplicate keys). -/
def alookup {β : Type} (k : String) : List (String × β) → Option β
  | [] => none
  | (k', v) :: rest => if k = k' then some v else alookup k rest

/-- Value of a digit list read in base 10. -/
def digitsVal (cs : List Char) : Nat :=
  cs.foldl (fun acc c => 10 * acc + (c.toNat - 48)) 0

/-- Check that a character list is a non-empty run of ASCII digits. -/
def allDigits (cs : List Char) : Bool :=
  !cs.isEmpty && cs.all Char.isDigit

/-- Model of Python's builtin `int()` on the plain decimal strings the
datasets carry: an optional sign followed by decimal digits.
(Surrounding whitespace, underscores and non-ASCII digits are not
modelled.) -/
def pyInt (s : String) : Option Int :=
  match s.toList with
  | '+' :: cs => if allDigits cs then some (digitsVal cs) else none
  | '-' :: cs => if allDigits cs then some (-(digitsVal cs : Int)) else none
  | cs => if allDigits cs then some (digitsVal cs) else none

/-- Split a character list at the first `'.'`. -/
def splitAtDot (cs : List Char) : List Char × Option (List Char) :=
  match cs with
  | [] => ([], none)
  | '.' :: rest => ([], some rest)
  | c :: rest =>
    let (a, b) := splitAtDot rest
    (c :: a, b)

/-- Digits before and after an optional single dot, at least one digit in
total; `none` otherwise. -/
def parseDecimal (cs : List Char) : Option Rat :=
  match splitAtDot cs with
  | (intPart, none) =>
    if allDigits intPart then some (digitsVal intPart : Rat) else none
  | (intPart, some fracPart) =>
    if fracPart.any (fun c => c = '.') then none
    else if intPart.all Char.isDigit && fracPart.all Char.isDigit
        && (!intPart.isEmpty || !fracPart.isEmpty) then
      some ((digitsVal intPart : Rat) +
        (digitsVal fracPart : Rat) / ((10 : Rat) ^ fracPart.length))
    else none

/-- Model of Python's builtin `float()` on the plain decimal notation the
datasets carry: optional sign, digits, optional fractional part.
(Exponents, `inf`, `nan`, whitespace and underscores are not
modelled.) -/
def pyFloat (s : String) : Option Rat :=
  match s.toList with
  | '+' :: cs => parseDecimal cs
  | '-' :: cs => (parseDecimal cs).map Neg.neg
  | cs => parseDecimal cs

/-- Type-specific substitute used when the null sentinel hits a
non-nullable column (`database.py` lines 271-279).  The code assigns the
Python integer `0` for both `int` and `float` columns. -/
def zeroValue : PyType → Value
  | .bool => .vBool false
  | .int => .vInt 0
  | .float => .vInt 0
  | .str => .vStr ""

/-- Message of the `PimdbError` raised for a malformed boolean
(`database.py` line 293). -/
def boolCoercionMsg (colName raw : String) : String :=
  "value for column \"" ++ colName ++ "\" must be a boolean but is: \"" ++ raw ++ "\""

/-- One iteration of the column loop of `typed_column_to_value_map`
(`database.py` lines 266-296): the typed value for one column together
with the warnings it logs (warnings are recorded as the offending column
name). -/
def coerceColumn (c : Col) (raw : String) : Except PyErr (Value × List String) :=
  if raw = "\\N" then
    if c.nullable then .ok (.vNone, [])
    else .ok (zeroValue c.type, [c.name])
  else
    match c.type with
    | .bool =>
      if raw = "1" then .ok (.vBool true, [])
      else if raw = "0" then .ok (.vBool false, [])
      else .error (.pimdbError (boolCoercionMsg c.name raw))
    | .int =>
      match pyInt raw with
      | some n => .ok (.vInt n, [])
      | none => .error (.valueError raw)
    | .float =>
      match pyFloat raw with
      | some q => .ok (.vFloat q, [])
      | none => .error (.valueError raw)
    | .str => .ok (.vStr raw, [])

/-- Embedding of `typed_column_to_value_map` (`database.py` lines
262-297).  The table is its column list, the raw row is an association
list; the result is the ordered column-name-to-value map together with
the warnings logged along the way.  An absent key models the `KeyError`
of `column_name_to_raw_value_map[column.name]`. -/
def typed_column_to_value_map (cols : List Col) (rawMap : List (String × String)) :
    Except PyErr (List (String × Value) × List String) :=
  match cols with
  | [] => .ok ([], [])
  | c :: rest =>
    match alookup c.name rawMap with
    | none => .error (.keyError c.name)
    | some raw =>
      match coerceColumn c raw with
      | .error e => .error e
      | .ok (v, w) =>
        match typed_column_to_value_map rest rawMap with
        | .error e => .error e
        | .ok (m, ws) => .ok ((c.name, v) :: m, w ++ ws)

/-- Message attached when `build_dataset_table` re-raises a `PimdbError`
(`database.py` lines 456-459). -/
def rowContextMsg (path : String) (rowNumber : Nat) (msg : String) : String :=
  path ++ " (" ++ toString rowNumber ++ "): cannot process row: " ++ msg

/-- Row-scope error handling of `Database.build_dataset_table`
(`database.py` lines 453-459): `typed_column_to_value_map` runs under
`except PimdbError`, so only a `PimdbError` is re-raised with the gzip
path and the reader's row number; any other exception propagates
unchanged. -/
def process_dataset_row (path : String) (rowNumber : Nat) (cols : List Col)
    (rawMap : List (String × String)) :
    Except PyErr (List (String × Value) × List String) :=
  match typed_column_to_value_map cols rawMap with
  | .ok v => .ok v
  | .error (.pimdbError m) => .error (.pimdbError (rowContextMsg path rowNumber m))
  | .error e => .error e

/-- Whether the loop iteration for one column runs without raising:
its raw value is present and coerces. -/
def colStepOk (rawMap : List (String × String)) (c : Col) : Bool :=
  match alookup c.name rawMap with
  | none => false
  | some raw =>
    match coerceColumn c raw with
    | .ok _ => true
    | .error _ => false

theorem coerceColumn_warn (c : Col) (raw : String) (v : Value) (w : List String)
    (h : coerceColumn c raw = .ok (v, w)) : w = [] ∨ w = [c.name] := by
  unfold coerceColumn at h
  split at h
  · split at h <;> (injection h with h'; injection h' with h1 h2; simp [← h2])
  · split at h
    · split at h
      · injection h with h'; injection h' with h1 h2; simp [← h2]
      · split at h
        · injection h with h'; injection h' with h1 h2; simp [← h2]
        · cases h
    · split at h
      · injection h with h'; injection h' with h1 h2; simp [← h2]
      · cases h
    · split at h
      · injection h with h'; injection h' with h1 h2; simp [← h2]
      · cases h
    · injection h with h'; injection h' with h1 h2; simp [← h2]

theorem coerceColumn_no_keyError (c : Col) (raw : String) (k : String)
    (h : coerceColumn c raw = .error (.keyError k)) : False := by
  unfold coerceColumn at h
  split at h
  · split at h <;> cases h
  · split at h
    · split at h
      · cases h
      · split at h
        · cases h
        · injection h with h'; cases h'
    · split at h
      · cases h
      · injection h with h'; cases h'
    · split at h
      · cases h
      · injection h with h'; cases h'
    · cases h

theorem typed_warning_names (cols : List Col) (rawMap : List (String × String))
    (m : List (String × Value)) (ws : List String)
    (h : typed_column_to_value_map cols rawMap = .ok (m, ws)) :
    ∀ n ∈ ws, n ∈ cols.map Col.name := by
  induction cols generalizing m ws with
  | nil =>
    unfold typed_column_to_value_map at h
    injection h with h'
    injection h' with h1 h2
    simp [← h2]
  | cons c rest ih =>
    unfold typed_column_to_value_map at h
    cases hl : alookup c.name rawMap with
    | none => simp only [hl] at h; exact Except.noConfusion h
    | some raw =>
      simp only [hl] at h
      cases hc : coerceColumn c raw with
      | error e => simp only [hc] at h; exact Except.noConfusion h
      | ok vw =>
        obtain ⟨v, w⟩ := vw
        simp only [hc] at h
        cases hr : typed_column_to_value_map rest rawMap with
        | error e => simp only [hr] at h; exact Except.noConfusion h
        | ok mws =>
          obtain ⟨m', ws'⟩ := mws
          simp only [hr] at h
          injection h with h'
          injection h' with h1 h2
          intro n hn
          rw [← h2] at hn
          rcases List.mem_append.mp hn with hn | hn
          · rcases coerceColumn_warn c raw v w hc with hw | hw
            · rw [hw] at hn; cases hn
            · rw [hw] at hn
              simp at hn
              simp [hn]
          · have := ih m' ws' hr n hn
            simp at this ⊢
            exact Or.inr this

theorem typed_lookup (cols : List Col) (rawMap : List (String × String)) (c : Col)
    (raw : String) (v : Value) (w : List String)
    (hnd : (cols.map Col.name).Nodup) (hc : c ∈ cols)
    (hl : alookup c.name rawMap = some raw) (hcc : coerceColumn c raw = .ok (v, w))
    (m : List (String × Value)) (ws : List String)
    (h : typed_column_to_value_map cols rawMap = .ok (m, ws)) :
    alookup c.name m = some v ∧ ws.count c.name = w.count c.name := by
  induction cols generalizing m ws with
  | nil => cases hc
  | cons c0 rest ih =>
    unfold typed_column_to_value_map at h
    cases hl0 : alookup c0.name rawMap with
    | none => simp only [hl0] at h; exact Except.noConfusion h
    | some raw0 =>
      simp only [hl0] at h
      cases hc0 : coerceColumn c0 raw0 with
      | error e => simp only [hc0] at h; exact Except.noConfusion h
      | ok vw =>
        obtain ⟨v0, w0⟩ := vw
        simp only [hc0] at h
        cases hr : typed_column_to_value_map rest rawMap with
        | error e => simp only [hr] at h; exact Except.noConfusion h
        | ok mws =>
          obtain ⟨m', ws'⟩ := mws
          simp only [hr] at h
          injection h with h'
          injection h' with h1 h2
          simp only [List.map_cons, List.nodup_cons] at hnd
          rcases List.mem_cons.mp hc with hceq | hcmem
          · subst hceq
            rw [hl0] at hl
            injection hl with hl
            subst hl
            rw [hc0] at hcc
            injection hcc with hcc
            injection hcc with hv hw
            subst hv; subst hw
            rw [← h1, ← h2]
            refine ⟨by simp [alookup], ?_⟩
            rw [List.count_append]
            have hws0 : ws'.count c.name = 0 := by
              rw [List.count_eq_zero]
              intro hmem
              exact hnd.1 (typed_warning_names rest rawMap m' ws' hr c.name hmem)
            rw [hws0]
            simp
          · have hne : c.name ≠ c0.name := by
              intro heq
              exact hnd.1 (heq ▸ List.mem_map_of_mem Col.name hcmem)
            have hih := ih hnd.2 hcmem m' ws' hr
            rw [← h1, ← h2]
            constructor
            · simpa [alookup, hne] using hih.1
            · rw [List.count_append, hih.2]
              rcases coerceColumn_warn c0 raw0 v0 w0 hc0 with hw | hw <;>
                simp [hw, hne]

theorem typed_err_at (pre : List Col) (c : Col) (post : List Col)
    (rawMap : List (String × String))
    (hpre : ∀ c' ∈ pre, colStepOk rawMap c' = true)
    (e : PyErr) (raw : String) (hl : alookup c.name rawMap = some raw)
    (hcc : coerceColumn c raw = .error e) :
    typed_column_to_value_map (pre ++ c :: post) rawMap = .error e := by
  induction pre with
  | nil =>
    unfold typed_column_to_value_map
    rw [List.nil_append]
    simp only [hl, hcc]
  | cons p pre' ih =>
    have hp := hpre p (List.mem_cons_self p pre')
    unfold colStepOk at hp
    rw [List.cons_append]
    unfold typed_column_to_value_map
    cases hlp : alookup p.name rawMap with
    | none =>
      simp only [hlp] at hp
      exact absurd hp Bool.false_ne_true
    | some rawp =>
      simp only [hlp] at hp
      cases hcp : coerceColumn p rawp with
      | error ep =>
        simp only [hcp] at hp
        exact absurd hp Bool.false_ne_true
      | ok vw =>
        obtain ⟨vp, wp⟩ := vw
        have hrec := ih (fun c' hc' => hpre c' (List.mem_cons_of_mem p hc'))
        simp only [hlp, hcp, hrec]

/-- C1: for every staging table and raw row map with a string for each
column, `typed_column_to_value_map` yields: null for `"\N"` on a
nullable column; the type-specific zero value with exactly one warning
naming the column for `"\N"` on a non-nullable column; `true`/`false`
for `"1"`/`"0"` on a boolean column; and a `PimdbError` naming the
column and the raw value for any other raw value on a boolean column. -/
theorem C1_typed_column_to_value_map_cases
    (cols : List Col) (rawMap : List (String × String)) (c : Col)
    (hnd : (cols.map Col.name).Nodup) (hc : c ∈ cols) :
    (∀ m ws, typed_column_to_value_map cols rawMap = .ok (m, ws) →
      (alookup c.name rawMap = some "\\N" →
        (c.nullable = true → alookup c.name m = some Value.vNone) ∧
        (c.nullable = false →
          alookup c.name m = some (zeroValue c.type) ∧ ws.count c.name = 1)) ∧
      (c.type = PyType.bool →
        (alookup c.name rawMap = some "1" → alookup c.name m = some (Value.vBool true)) ∧
        (alookup c.name rawMap = some "0" → alookup c.name m = some (Value.vBool false))))
    ∧ (∀ v pre post, cols = pre ++ c :: post →
        (∀ c' ∈ pre, colStepOk rawMap c' = true) →
        alookup c.name rawMap = some v → v ≠ "\\N" → c.type = PyType.bool →
        v ≠ "1" → v ≠ "0" →
        typed_column_to_value_map cols rawMap =
          .error (.pimdbError (boolCoercionMsg c.name v))) := by
  constructor
  · intro m ws h
    constructor
    · intro hl
      constructor
      · intro hnull
        exact (typed_lookup cols rawMap c "\\N" .vNone [] hnd hc hl
          (by simp [coerceColumn, hnull]) m ws h).1
      · intro hnn
        have hres := typed_lookup cols rawMap c "\\N" (zeroValue c.type) [c.name] hnd hc hl
          (by simp [coerceColumn, hnn]) m ws h
        exact ⟨hres.1, by simpa using hres.2⟩
    · intro hb
      constructor
      · intro hl
        exact (typed_lookup cols rawMap c "1" (.vBool true) [] hnd hc hl
          (by simp [coerceColumn, hb]) m ws h).1
      · intro hl
        exact (typed_lookup cols rawMap c "0" (.vBool false) [] hnd hc hl
          (by simp [coerceColumn, hb]) m ws h).1
  · intro v pre post hcols hpre hl hv hb h1 h0
    subst hcols
    exact typed_err_at pre c post rawMap hpre _ v hl
      (by simp [coerceColumn, hv, hb, h1, h0])

/-- Witness for C1 on a concrete three-column table whose non-nullable
boolean column holds the null sentinel. -/
theorem C1_witness :
    alookup "isAdult"
      [("tconst", Value.vStr "tt1"), ("isAdult", Value.vBool false),
        ("startYear", Value.vInt 1894)] = some (Value.vBool false) ∧
    List.count "isAdult" ["isAdult"] = 1 := by
  have h := (C1_typed_column_to_value_map_cases
      [⟨"tconst", PyType.str, false⟩, ⟨"isAdult", PyType.bool, false⟩,
        ⟨"startYear", PyType.int, true⟩]
      [("tconst", "tt1"), ("isAdult", "\\N"), ("startYear", "1894")]
      ⟨"isAdult", PyType.bool, false⟩ (by decide) (by decide)).1
      [("tconst", Value.vStr "tt1"), ("isAdult", Value.vBool false),
        ("startYear", Value.vInt 1894)]
      ["isAdult"] rfl
  have h2 := (h.1 rfl).2 rfl
  exact ⟨by simpa [zeroValue] using h2.1, h2.2⟩

theorem typed_no_keyError (cols : List Col) (rawMap : List (String × String))
    (hall : ∀ c ∈ cols, (alookup c.name rawMap).isSome) (k : String)
    (h : typed_column_to_value_map cols rawMap = .error (.keyError k)) : False := by
  induction cols with
  | nil => exact Except.noConfusion h
  | cons c rest ih =>
    unfold typed_column_to_value_map at h
    cases hl : alookup c.name rawMap with
    | none =>
      have := hall c (List.mem_cons_self c rest)
      rw [hl] at this
      exact Bool.noConfusion this
    | some raw =>
      simp only [hl] at h
      cases hc : coerceColumn c raw with
      | error e =>
        simp only [hc] at h
        injection h with h'
        rw [h'] at hc
        exact coerceColumn_no_keyError c raw k hc
      | ok vw =>
        obtain ⟨v, w⟩ := vw
        simp only [hc] at h
        cases hr : typed_column_to_value_map rest rawMap with
        | error e =>
          simp only [hr] at h
          injection h with h'
          rw [h'] at hr
          exact ih (fun c' hc' => hall c' (List.mem_cons_of_mem c hc')) hr
        | ok mws =>
          obtain ⟨m', ws'⟩ := mws
          simp only [hr] at h
          exact Except.noConfusion h

theorem typed_keys (cols : List Col) (rawMap : List (String × String))
    (m : List (String × Value)) (ws : List String)
    (h : typed_column_to_value_map cols rawMap = .ok (m, ws)) :
    m.map Prod.fst = cols.map Col.name := by
  induction cols generalizing m ws with
  | nil =>
    unfold typed_column_to_value_map at h
    injection h with h'
    injection h' with h1 h2
    simp [← h1]
  | cons c rest ih =>
    unfold typed_column_to_value_map at h
    cases hl : alookup c.name rawMap with
    | none => simp only [hl] at h; exact Except.noConfusion h
    | some raw =>
      simp only [hl] at h
      cases hc : coerceColumn c raw with
      | error e => simp only [hc] at h; exact Except.noConfusion h
      | ok vw =>
        obtain ⟨v, w⟩ := vw
        simp only [hc] at h
        cases hr : typed_column_to_value_map rest rawMap with
        | error e => simp only [hr] at h; exact Except.noConfusion h
        | ok mws =>
          obtain ⟨m', ws'⟩ := mws
          simp only [hr] at h
          injection h with h'
          injection h' with h1 h2
          rw [← h1]
          simp [ih m' ws' hr]

/-- C2 counterexample: for the single-column staging table holding the
integer column `startYear` and the raw value `"abc"`, the parse failure
surfaces as Python's builtin `ValueError`, which is not a `PimdbError`
coercion error, so `build_dataset_table` never re-raises it with the
gzip path and row number attached. -/
theorem C2_counterexample :
    process_dataset_row "datasets/title.basics.tsv.gz" 5
        [⟨"startYear", PyType.int, true⟩] [("startYear", "abc")]
      = .error (.valueError "abc") ∧
    ∀ msg, process_dataset_row "datasets/title.basics.tsv.gz" 5
        [⟨"startYear", PyType.int, true⟩] [("startYear", "abc")]
      ≠ .error (.pimdbError msg) := by
  refine ⟨rfl, ?_⟩
  intro msg h
  have h0 : process_dataset_row "datasets/title.basics.tsv.gz" 5
      [⟨"startYear", PyType.int, true⟩] [("startYear", "abc")]
      = .error (.valueError "abc") := rfl
  rw [h0] at h
  injection h with h'
  exact PyErr.noConfusion h'

/-- C2 (amended): a non-sentinel raw value that fails to parse into a
declared int or float column raises Python's builtin `ValueError`, which
propagates out of `build_dataset_table` unchanged (without the gzip path
and row number); only `PimdbError` coercion errors (malformed booleans)
are re-raised with the source gzip file path and the reader's row number
before the enclosing transaction aborts. -/
theorem C2_amended_error_context (path : String) (rowNumber : Nat)
    (cols : List Col) (rawMap : List (String × String)) :
    (∀ msg, typed_column_to_value_map cols rawMap = .error (.pimdbError msg) →
      process_dataset_row path rowNumber cols rawMap =
        .error (.pimdbError (rowContextMsg path rowNumber msg)))
    ∧ (∀ lit, typed_column_to_value_map cols rawMap = .error (.valueError lit) →
      process_dataset_row path rowNumber cols rawMap = .error (.valueError lit))
    ∧ (∀ c raw, c.type = PyType.int → raw ≠ "\\N" → pyInt raw = none →
        coerceColumn c raw = .error (.valueError raw))
    ∧ (∀ c raw, c.type = PyType.float → raw ≠ "\\N" → pyFloat raw = none →
        coerceColumn c raw = .error (.valueError raw))
    ∧ (∀ c raw pre post, cols = pre ++ c :: post →
        (∀ c' ∈ pre, colStepOk rawMap c' = true) →
        alookup c.name rawMap = some raw → c.type = PyType.int →
        raw ≠ "\\N" → pyInt raw = none →
        process_dataset_row path rowNumber cols rawMap = .error (.valueError raw)) := by
  refine ⟨?_, ?_, ?_, ?_, ?_⟩
  · intro msg h
    unfold process_dataset_row
    rw [h]
  · intro lit h
    unfold process_dataset_row
    rw [h]
  · intro c raw ht hs hp
    simp [coerceColumn, ht, hs, hp]
  · intro c raw ht hs hp
    simp [coerceColumn, ht, hs, hp]
  · intro c raw pre post hcols hpre hl ht hs hp
    subst hcols
    have htyped := typed_err_at pre c post rawMap hpre (.valueError raw) raw hl
      (by simp [coerceColumn, ht, hs, hp])
    unfold process_dataset_row
    rw [htyped]

/-- Witness for the amended C2 on a concrete one-column table. -/
theorem C2_amended_witness :
    process_dataset_row "datasets/title.basics.tsv.gz" 7
        [⟨"runtimeMinutes", PyType.int, true⟩] [("runtimeMinutes", "abc")]
      = .error (.valueError "abc") := by
  exact (C2_amended_error_context "datasets/title.basics.tsv.gz" 7
      [⟨"runtimeMinutes", PyType.int, true⟩] [("runtimeMinutes", "abc")]).2.2.2.2
    ⟨"runtimeMinutes", PyType.int, true⟩ "abc" [] [] rfl
    (by intro c' hc'; cases hc') rfl rfl (by decide) rfl

/-- C10 counterexample: the precondition that the raw row map holds an
entry for every column is not enough for `typed_column_to_value_map` to
return a value map: with the single non-nullable boolean column
`isAdult` mapped to `"2"`, every column has an entry, yet the call
raises a `PimdbError` instead of returning. -/
theorem C10_counterexample :
    (∀ c ∈ [(⟨"isAdult", PyType.bool, false⟩ : Col)],
      (alookup c.name [("isAdult", "2")]).isSome) ∧
    ∀ m ws, typed_column_to_value_map [⟨"isAdult", PyType.bool, false⟩]
        [("isAdult", "2")] ≠ .ok (m, ws) := by
  refine ⟨by decide, ?_⟩
  intro m ws h
  have h0 : typed_column_to_value_map [⟨"isAdult", PyType.bool, false⟩] [("isAdult", "2")]
      = .error (.pimdbError (boolCoercionMsg "isAdult" "2")) := rfl
  rw [h0] at h
  exact Except.noConfusion h

/-- C10 (amended): under the precondition that the raw row map holds an
entry for every column, `typed_column_to_value_map` never fails with a
lookup (`KeyError`) failure, and whenever it returns a value map that
map is defined on exactly the table's columns; when the raw map misses
the first column's name it fails with a `KeyError`, which is not a
`PimdbError`, so `build_dataset_table` attaches no source-file or row
context to it. -/
theorem C10_amended_totality (cols : List Col) (rawMap : List (String × String))
    (path : String) (rowNumber : Nat) :
    ((∀ c ∈ cols, (alookup c.name rawMap).isSome) →
      ∀ k, typed_column_to_value_map cols rawMap ≠ .error (.keyError k))
    ∧ (∀ m ws, typed_column_to_value_map cols rawMap = .ok (m, ws) →
        m.map Prod.fst = cols.map Col.name)
    ∧ (∀ c rest, cols = c :: rest → alookup c.name rawMap = none →
        typed_column_to_value_map cols rawMap = .error (.keyError c.name))
    ∧ (∀ k, typed_column_to_value_map cols rawMap = .error (.keyError k) →
        process_dataset_row path rowNumber cols rawMap = .error (.keyError k)) := by
  refine ⟨?_, ?_, ?_, ?_⟩
  · intro hall k h
    exact typed_no_keyError cols rawMap hall k h
  · intro m ws h
    exact typed_keys cols rawMap m ws h
  · intro c rest hcols hl
    subst hcols
    unfold typed_column_to_value_map
    simp only [hl]
  · intro k h
    unfold process_dataset_row
    rw [h]

/-- Witness for the amended C10: a present key never yields a
`KeyError`; an absent key yields exactly the `KeyError` of the first
column and it passes through `build_dataset_table` unwrapped. -/
theorem C10_amended_witness :
    typed_column_to_value_map [⟨"tconst", PyType.str, false⟩] []
      = .error (.keyError "tconst") ∧
    process_dataset_row "datasets/title.basics.tsv.gz" 3
        [⟨"tconst", PyType.str, false⟩] []
      = .error (.keyError "tconst") ∧
    List.map Prod.fst [("tconst", Value.vStr "tt1")] =
      List.map Col.name [⟨"tconst", PyType.str, false⟩] := by
  have h3 := (C10_amended_totality [⟨"tconst", PyType.str, false⟩] []
      "datasets/title.basics.tsv.gz" 3).2.2.1
    ⟨"tconst", PyType.str, false⟩ [] rfl rfl
  have h4 := (C10_amended_totality [⟨"tconst", PyType.str, false⟩] []
      "datasets/title.basics.tsv.gz" 3).2.2.2 "tconst" h3
  have h2 := (C10_amended_totality [⟨"tconst", PyType.str, false⟩]
      [("tconst", "tt1")] "datasets/title.basics.tsv.gz" 3).2.1
    [("tconst", Value.vStr "tt1")] [] rfl
  exact ⟨h3, h4, h2⟩

/-- Test whether `sep` occurs at the head of `s`. -/
def headMatches (sep s : List Char) : Bool := s.take sep.length == sep

/-- Fuel-indexed splitting loop; `acc` holds the current field reversed.
The fuel is the length of the remaining input, enough because every
step consumes at least one character. -/
def splitGo (sep : List Char) : Nat → List Char → List Char → List (List Char)
  | 0, acc, s => [acc.reverse ++ s]
  | _ + 1, acc, [] => [acc.reverse]
  | fuel + 1, acc, c :: rest =>
    if headMatches sep (c :: rest) then
      acc.reverse :: splitGo sep fuel [] ((c :: rest).drop sep.length)
    else splitGo sep fuel (c :: acc) rest

/-- Model of Python `str.split(sep)` for a non-empty separator, as used
on the comma-separated staging columns: splits at every non-overlapping
occurrence, keeping empty fields, `"".split(sep) = [""]`. -/
def pySplit (s sep : String) : List String :=
  if sep.toList.isEmpty then [s]
  else (splitGo sep.toList s.toList.length [] s.toList).map String.mk

/-- One emitted row of an ordered-relation build: the owning entity's
surrogate id, the dense 1-based ordering, and the target surrogate id. -/
structure RelRow where
  ownerId : Nat
  ordering : Nat
  targetId : Nat
deriving DecidableEq, Repr

/-- The shared token loop of `Database._build_title_to_crew_table`
(`database.py` lines 840-853) and
`Database.build_name_to_known_for_title_table` (lines 709-722): each
token is looked up in the natural-key-to-surrogate-id map; a hit bumps
the ordering counter and emits a row, a miss is skipped with a debug
log. -/
def resolveAndEmit (idMap : List (String × Nat)) (ownerId : Nat) :
    Nat → List String → List RelRow
  | _, [] => []
  | ordering, tok :: rest =>
    match alookup tok idMap with
    | some targetId =>
      ⟨ownerId, ordering + 1, targetId⟩ :: resolveAndEmit idMap ownerId (ordering + 1) rest
    | none => resolveAndEmit idMap ownerId ordering rest

/-- Rows emitted for one `title_crew` source row by
`Database._build_title_to_crew_table` (used for both `title_to_director`
and `title_to_writer`): split the nconst list on `","`, start the
ordering counter at 0. -/
def build_title_to_crew_rows (nconstToNameIdMap : List (String × Nat))
    (titleId : Nat) (nconsts : String) : List RelRow :=
  resolveAndEmit nconstToNameIdMap titleId 0 (pySplit nconsts ",")

/-- Rows emitted for one `name_basics` source row by
`Database.build_name_to_known_for_title_table`: split `knownForTitles`
on `","`, start the ordering counter at 0. -/
def build_name_to_known_for_title_rows (tconstToTitleIdMap : List (String × Nat))
    (nameId : Nat) (knownForTitles : String) : List RelRow :=
  resolveAndEmit tconstToTitleIdMap nameId 0 (pySplit knownForTitles ",")

theorem resolveAndEmit_spec (idMap : List (String × Nat)) (ownerId : Nat)
    (n : Nat) (toks : List String) :
    (resolveAndEmit idMap ownerId n toks).map RelRow.targetId
        = toks.filterMap (fun t => alookup t idMap) ∧
    (resolveAndEmit idMap ownerId n toks).map RelRow.ordering
        = List.range' (n + 1) (toks.countP (fun t => (alookup t idMap).isSome)) ∧
    (resolveAndEmit idMap ownerId n toks).map RelRow.ownerId
        = List.replicate (toks.countP (fun t => (alookup t idMap).isSome)) ownerId := by
  induction toks generalizing n with
  | nil => simp [resolveAndEmit]
  | cons t rest ih =>
    unfold resolveAndEmit
    cases hl : alookup t idMap with
    | none =>
      simp only [hl]
      have h := ih n
      simp only [List.filterMap_cons, List.countP_cons, hl]
      simpa using h
    | some tid =>
      simp only [hl]
      have h := ih (n + 1)
      simp only [List.filterMap_cons, List.countP_cons, hl]
      refine ⟨by simpa using h.1, ?_, ?_⟩
      · simp only [List.map_cons, h.2.1]
        have : List.range' (n + 1) (rest.countP (fun t => (alookup t idMap).isSome) + 1)
            = (n + 1) :: List.range' (n + 1 + 1) (rest.countP (fun t => (alookup t idMap).isSome)) := by
          rw [List.range'_succ]
        simp [this]
      · simp only [List.map_cons, h.2.2]
        simp [List.replicate_succ]

/-- C3: in the row-oriented builds of `title_to_director`,
`title_to_writer` and `name_to_known_for_title`, every comma-separated
token is looked up in the natural-key-to-surrogate-id map, unresolved
tokens are skipped, and resolved tokens are emitted with ordering equal
to their 1-based position after dropping the unresolved tokens, so for
every owner the emitted ordering values form the dense sequence `1..k`
(`List.range' 1 k`) with no gaps. -/
theorem C3_dense_ordering_under_drops (idMap : List (String × Nat))
    (ownerId : Nat) (raw : String) :
    ((build_title_to_crew_rows idMap ownerId raw).map RelRow.targetId
        = (pySplit raw ",").filterMap (fun t => alookup t idMap)
      ∧ (build_title_to_crew_rows idMap ownerId raw).map RelRow.ordering
        = List.range' 1 ((pySplit raw ",").countP (fun t => (alookup t idMap).isSome))
      ∧ (build_title_to_crew_rows idMap ownerId raw).map RelRow.ownerId
        = List.replicate ((pySplit raw ",").countP (fun t => (alookup t idMap).isSome)) ownerId)
    ∧ ((build_name_to_known_for_title_rows idMap ownerId raw).map RelRow.targetId
        = (pySplit raw ",").filterMap (fun t => alookup t idMap)
      ∧ (build_name_to_known_for_title_rows idMap ownerId raw).map RelRow.ordering
        = List.range' 1 ((pySplit raw ",").countP (fun t => (alookup t idMap).isSome))
      ∧ (build_name_to_known_for_title_rows idMap ownerId raw).map RelRow.ownerId
        = List.replicate ((pySplit raw ",").countP (fun t => (alookup t idMap).isSome)) ownerId) := by
  constructor
  · exact resolveAndEmit_spec idMap ownerId 0 (pySplit raw ",")
  · exact resolveAndEmit_spec idMap ownerId 0 (pySplit raw ",")

/-- A staging `title_basics` row (`database.py` lines 66-78). -/
structure TitleBasicsRow where
  tconst : String
  titleType : String
  primaryTitle : Option String
  originalTitle : Option String
  isAdult : Bool
  startYear : Option Int
  endYear : Option Int
  runtimeMinutes : Option Int
  genres : Option String
deriving DecidableEq, Repr

/-- A row of the `title_type` key table (surrogate id, unique name). -/
structure TitleTypeRow where
  id : Nat
  name : String
deriving DecidableEq, Repr

/-- A staging `title_ratings` row (`database.py` lines 123-130). -/
structure TitleRatingsRow where
  tconst : String
  averageRating : Rat
  numVotes : Int
deriving DecidableEq, Repr

/-- A report `title` row restricted to the columns filled by
`build_title_table` (`database.py` lines 733-758). -/
structure TitleRow where
  tconst : String
  title_type_id : Nat
  primary_title : Option String
  original_title : Option String
  is_adult : Bool
  start_year : Option Int
  end_year : Option Int
  runtime_minutes : Option Int
  average_rating : Rat
  rating_count : Int
deriving DecidableEq, Repr

/-- The projected SELECT row of `build_title_table`: staging columns
carried over, plus `coalesce(averageRating, 0)` and
`coalesce(numVotes, 0)` over the outer-joined rating row. -/
def titleRowOf (b : TitleBasicsRow) (t : TitleTypeRow) (r : Option TitleRatingsRow) :
    TitleRow :=
  ⟨b.tconst, t.id, b.primaryTitle, b.originalTitle, b.isAdult, b.startYear,
    b.endYear, b.runtimeMinutes,
    match r with | some r => r.averageRating | none => 0,
    match r with | some r => r.numVotes | none => 0⟩

/-- Rows the `INSERT ... SELECT` of `build_title_table` produces for one
`title_basics` row: inner join to `title_type` on
`title_type.name = titleType`, left outer join to `title_ratings` on
`tconst` (a null-extended row when no rating matches). -/
def titleRowsFor (types : List TitleTypeRow) (ratings : List TitleRatingsRow)
    (b : TitleBasicsRow) : List TitleRow :=
  (types.filter (fun t => t.name = b.titleType)).flatMap (fun t =>
    match ratings.filter (fun r => r.tconst = b.tconst) with
    | [] => [titleRowOf b t none]
    | rs => rs.map (fun r => titleRowOf b t (some r)))

/-- Embedding of `Database.build_title_table` (`database.py` lines
724-771): the rows inserted into `title` for the given staging tables
and the already-built `title_type` key table. -/
def build_title_table (basics : List TitleBasicsRow) (types : List TitleTypeRow)
    (ratings : List TitleRatingsRow) : List TitleRow :=
  basics.flatMap (titleRowsFor types ratings)

theorem titleRowsFor_tconst (types : List TitleTypeRow) (ratings : List TitleRatingsRow)
    (b : TitleBasicsRow) : ∀ x ∈ titleRowsFor types ratings b, x.tconst = b.tconst := by
  intro x hx
  unfold titleRowsFor at hx
  rw [List.mem_flatMap] at hx
  obtain ⟨t, ht, hx⟩ := hx
  cases hfr : ratings.filter (fun r => r.tconst = b.tconst) with
  | nil =>
    rw [hfr] at hx
    simp at hx
    rw [hx]
    rfl
  | cons r rs =>
    rw [hfr] at hx
    rw [List.mem_map] at hx
    obtain ⟨r', _, hx⟩ := hx
    rw [← hx]
    rfl

theorem build_title_table_filter (basics : List TitleBasicsRow)
    (types : List TitleTypeRow) (ratings : List TitleRatingsRow) (b : TitleBasicsRow)
    (hb : b ∈ basics) (hnd : (basics.map TitleBasicsRow.tconst).Nodup) :
    (build_title_table basics types ratings).filter (fun x => x.tconst = b.tconst)
      = titleRowsFor types ratings b := by
  induction basics with
  | nil => cases hb
  | cons b0 rest ih =>
    simp only [List.map_cons, List.nodup_cons] at hnd
    unfold build_title_table
    rw [List.flatMap_cons, List.filter_append]
    rcases List.mem_cons.mp hb with hbeq | hbmem
    · subst hbeq
      have h1 : (titleRowsFor types ratings b).filter (fun x => x.tconst = b.tconst)
          = titleRowsFor types ratings b := by
        rw [List.filter_eq_self]
        intro x hx
        simp [titleRowsFor_tconst types ratings b x hx]
      have h2 : (rest.flatMap (titleRowsFor types ratings)).filter
          (fun x => x.tconst = b.tconst) = [] := by
        rw [List.filter_eq_nil_iff]
        intro x hx
        rw [List.mem_flatMap] at hx
        obtain ⟨b', hb', hx⟩ := hx
        have hx' := titleRowsFor_tconst types ratings b' x hx
        have hne : b'.tconst ≠ b.tconst := by
          intro heq
          exact hnd.1 (heq ▸ List.mem_map_of_mem TitleBasicsRow.tconst hb')
        simp [hx', hne]
      rw [h1, h2, List.append_nil]
    · have h1 : (titleRowsFor types ratings b0).filter (fun x => x.tconst = b.tconst)
          = [] := by
        rw [List.filter_eq_nil_iff]
        intro x hx
        have hx' := titleRowsFor_tconst types ratings b0 x hx
        have hne : b0.tconst ≠ b.tconst := by
          intro heq
          exact hnd.1 (heq ▸ List.mem_map_of_mem TitleBasicsRow.tconst hbmem)
        simp [hx', hne]
      rw [h1, List.nil_append]
      exact ih hbmem hnd.2

/-- C4: for every `title_basics` row, `build_title_table` produces
exactly one `title` row; its `title_type_id` is the id of the
`title_type` row whose name equals the staging `titleType`; with no
matching `title_ratings` row the produced row has
`average_rating = 0` and `rating_count = 0`, and with a matching rating
row `averageRating` and `numVotes` are carried over. -/
theorem C4_build_title_table_row (basics : List TitleBasicsRow)
    (types : List TitleTypeRow) (ratings : List TitleRatingsRow) (b : TitleBasicsRow)
    (hb : b ∈ basics) (hnd : (basics.map TitleBasicsRow.tconst).Nodup)
    (t : TitleTypeRow) (ht : types.filter (fun x => x.name = b.titleType) = [t])
    (hr : (ratings.filter (fun r => r.tconst = b.tconst)).length ≤ 1) :
    ∃ row,
      (build_title_table basics types ratings).filter (fun x => x.tconst = b.tconst)
          = [row]
      ∧ row.title_type_id = t.id
      ∧ (ratings.filter (fun r => r.tconst = b.tconst) = [] →
          row.average_rating = 0 ∧ row.rating_count = 0)
      ∧ (∀ r, ratings.filter (fun r2 => r2.tconst = b.tconst) = [r] →
          row.average_rating = r.averageRating ∧ row.rating_count = r.numVotes) := by
  rw [build_title_table_filter basics types ratings b hb hnd]
  unfold titleRowsFor
  rw [ht]
  cases hfr : ratings.filter (fun r => r.tconst = b.tconst) with
  | nil =>
    refine ⟨titleRowOf b t none, ?_, rfl, fun _ => ⟨rfl, rfl⟩, ?_⟩
    · simp [hfr]
    · intro r hr2
      exact List.noConfusion hr2
  | cons r rs =>
    have hrs : rs = [] := by
      rw [hfr] at hr
      simpa using hr
    subst hrs
    refine ⟨titleRowOf b t (some r), ?_, rfl, ?_, ?_⟩
    · simp [hfr]
    · intro h0
      exact List.noConfusion h0
    · intro r' hr'
      injection hr' with h1 h2
      subst h1
      exact ⟨rfl, rfl⟩

/-- Witness for C4 on a one-row `title_basics` staging table with no
rating row: the built `title` row carries the `short` title type id and
the coalesced rating defaults. -/
theorem C4_witness :
    ∃ row,
      (build_title_table
          [⟨"tt0000001", "short", some "Carmencita", some "Carmencita", false,
            some 1894, none, some 1, some "Documentary,Short"⟩]
          [⟨3, "short"⟩] []).filter (fun x => x.tconst = "tt0000001") = [row]
      ∧ row.title_type_id = (⟨3, "short"⟩ : TitleTypeRow).id
      ∧ (([] : List TitleRatingsRow).filter (fun r => r.tconst = "tt0000001") = [] →
          row.average_rating = 0 ∧ row.rating_count = 0)
      ∧ (∀ r, ([] : List TitleRatingsRow).filter (fun r2 => r2.tconst = "tt0000001") = [r] →
          row.average_rating = r.averageRating ∧ row.rating_count = r.numVotes) :=
  C4_build_title_table_row
    [⟨"tt0000001", "short", some "Carmencita", some "Carmencita", false,
      some 1894, none, some 1, some "Documentary,Short"⟩]
    [⟨3, "short"⟩] []
    ⟨"tt0000001", "short", some "Carmencita", some "Carmencita", false,
      some 1894, none, some 1, some "Documentary,Short"⟩
    (by decide) (by decide) ⟨3, "short"⟩ (by decide) (by decide)

/-- The closed list of known alias type tags, `IMDB_TITLE_ALIAS_TYPES`
(`database.py` line 54), in its fixed enumerated order. -/
def IMDB_TITLE_ALIAS_TYPES : List String :=
  ["alternative", "dvd", "festival", "tv", "video", "working", "original", "imdbDisplay"]

/-- Model of the Python substring test `pat in s` for a non-empty
pattern, on character lists. -/
def containsSub (pat : List Char) : List Char → Bool
  | [] => pat.isEmpty
  | c :: rest => ((c :: rest).take pat.length == pat) || containsSub pat rest

/-- Fuel-indexed loop of `replaceAll`: replaces every non-overlapping
occurrence of `pat` (non-empty) left to right. -/
def replaceGo (pat repl : List Char) : Nat → List Char → List Char
  | _, [] => []
  | 0, s => s
  | fuel + 1, c :: rest =>
    if (c :: rest).take pat.length == pat then
      repl ++ replaceGo pat repl fuel ((c :: rest).drop pat.length)
    else c :: replaceGo pat repl fuel rest

/-- Model of Python `str.replace(pat, repl)` for the non-empty patterns
used here (the enumerated alias type tags). -/
def pyReplace (s pat repl : String) : String :=
  if pat.toList.isEmpty then s
  else String.mk (replaceGo pat.toList repl.toList s.toList.length s.toList)

/-- Model of the Python substring test `pat in s` on strings. -/
def pyContains (s pat : String) : Bool := containsSub pat.toList s.toList

/-- The pure greedy matching loop of
`Database.mappable_title_alias_types` (`database.py` lines 858-866):
each enumerated tag is tested against the remaining raw string in the
fixed enumerated order; a match appends the tag to the result and
removes every occurrence of it from the residual.  Returns the matched
tags together with the final residual.  For a falsy (empty) raw string
the whole body is skipped. -/
def aliasTypeStep (acc : List String × String) (tag : String) :
    List String × String :=
  if pyContains acc.2 tag then (acc.1 ++ [tag], pyReplace acc.2 tag "") else acc

def mappableTitleAliasTypes (raw : String) : List String × String :=
  if raw = "" then ([], raw)
  else IMDB_TITLE_ALIAS_TYPES.foldl aliasTypeStep ([], raw)

/-- One uncached call of `Database.mappable_title_alias_types`
(`database.py` lines 855-877) against the unknown-types set: returns the
matched tags, the updated unknown-types set, and the warning emitted (a
non-empty residual not yet in the set is added and warned about
once). -/
def mappable_call (unknown : List String) (raw : String) :
    List String × List String × Option String :=
  if raw = "" then ([], unknown, none)
  else
    let res := mappableTitleAliasTypes raw
    if res.2 ≠ "" ∧ res.2 ∉ unknown then
      (res.1, unknown ++ [res.2], some res.2)
    else (res.1, unknown, none)

/-- The memoization and warning state surrounding
`mappable_title_alias_types`: the `lru_cache` contents, the
`_unknown_title_alias_types` set, and the warnings logged so far. -/
structure AliasTypeState where
  cache : List (String × List String)
  unknown : List String
  warnings : List String
deriving DecidableEq, Repr

/-- One call of the `lru_cache`-memoized
`Database.mappable_title_alias_types`: a cache hit returns the stored
result and leaves the state untouched (the body is not re-executed); a
miss executes the body and stores the result. -/
def mappable_memo (st : AliasTypeState) (raw : String) :
    List String × AliasTypeState :=
  match alookup raw st.cache with
  | some result => (result, st)
  | none =>
    let res := mappable_call st.unknown raw
    (res.1, ⟨st.cache ++ [(raw, res.1)], res.2.1, st.warnings ++ res.2.2.toList⟩)

/-- The sequence of `mappable_title_alias_types` calls made while
`build_title_alias_to_title_alias_type_table` iterates its source rows:
threads the memo/warning state through and collects each call's
output. -/
def runAliasTypeCalls (st : AliasTypeState) :
    List String → List (List String) × AliasTypeState
  | [] => ([], st)
  | raw :: rest =>
    ((mappable_memo st raw).1 :: (runAliasTypeCalls (mappable_memo st raw).2 rest).1,
      (runAliasTypeCalls (mappable_memo st raw).2 rest).2)

theorem alookup_mem {β : Type} (k : String) (l : List (String × β)) (v : β)
    (h : alookup k l = some v) : (k, v) ∈ l := by
  induction l with
  | nil => exact Option.noConfusion h
  | cons p rest ih =>
    obtain ⟨k', v'⟩ := p
    unfold alookup at h
    by_cases hk : k = k'
    · simp only [hk, if_pos rfl] at h
      injection h with h
      rw [← hk, ← h]
      exact List.mem_cons_self _ _
    · simp only [if_neg hk] at h
      exact List.mem_cons_of_mem _ (ih h)

theorem aliasTypeFold_sublist (tags : List String) (acc : List String × String) :
    ∃ extra, (tags.foldl aliasTypeStep acc).1 = acc.1 ++ extra ∧ extra.Sublist tags := by
  induction tags generalizing acc with
  | nil => exact ⟨[], by simp, List.nil_sublist []⟩
  | cons tag rest ih =>
    rw [List.foldl_cons]
    by_cases h : pyContains acc.2 tag = true
    · have hstep : aliasTypeStep acc tag = (acc.1 ++ [tag], pyReplace acc.2 tag "") := by
        unfold aliasTypeStep
        rw [if_pos h]
      rw [hstep]
      obtain ⟨e, he, hs⟩ := ih (acc.1 ++ [tag], pyReplace acc.2 tag "")
      refine ⟨tag :: e, ?_, List.Sublist.cons₂ tag hs⟩
      rw [he]
      simp
    · have hstep : aliasTypeStep acc tag = acc := by
        unfold aliasTypeStep
        rw [if_neg h]
      rw [hstep]
      obtain ⟨e, he, hs⟩ := ih acc
      exact ⟨e, he, List.Sublist.cons tag hs⟩

theorem mappable_sublist (raw : String) :
    (mappableTitleAliasTypes raw).1.Sublist IMDB_TITLE_ALIAS_TYPES := by
  unfold mappableTitleAliasTypes
  by_cases h : raw = ""
  · rw [if_pos h]
    exact List.nil_sublist _
  · rw [if_neg h]
    obtain ⟨e, he, hs⟩ := aliasTypeFold_sublist IMDB_TITLE_ALIAS_TYPES ([], raw)
    rw [he]
    simpa using hs

theorem mappable_empty : mappableTitleAliasTypes "" = ([], "") := rfl

theorem mappable_memo_spec (st : AliasTypeState) (raw : String)
    (hcache : ∀ p ∈ st.cache, p.2 = (mappableTitleAliasTypes p.1).1)
    (hcacheU : ∀ p ∈ st.cache, p.1 ≠ "" → (mappableTitleAliasTypes p.1).2 ≠ "" →
      (mappableTitleAliasTypes p.1).2 ∈ st.unknown)
    (hu : st.unknown = st.warnings) (hnd : st.warnings.Nodup) :
    (mappable_memo st raw).1 = (mappableTitleAliasTypes raw).1
    ∧ (∀ p ∈ (mappable_memo st raw).2.cache, p.2 = (mappableTitleAliasTypes p.1).1)
    ∧ (∀ p ∈ (mappable_memo st raw).2.cache, p.1 ≠ "" →
        (mappableTitleAliasTypes p.1).2 ≠ "" →
        (mappableTitleAliasTypes p.1).2 ∈ (mappable_memo st raw).2.unknown)
    ∧ (mappable_memo st raw).2.unknown = (mappable_memo st raw).2.warnings
    ∧ (mappable_memo st raw).2.warnings.Nodup
    ∧ (∀ r, r ∈ (mappable_memo st raw).2.warnings ↔
        r ∈ st.warnings ∨ (r ≠ "" ∧ raw ≠ "" ∧ (mappableTitleAliasTypes raw).2 = r)) := by
  cases hl : alookup raw st.cache with
  | some result =>
    have hmemo : mappable_memo st raw = (result, st) := by
      unfold mappable_memo
      rw [hl]
    have hmem := alookup_mem raw st.cache result hl
    have hres : result = (mappableTitleAliasTypes raw).1 := hcache (raw, result) hmem
    rw [hmemo]
    refine ⟨hres, hcache, hcacheU, hu, hnd, ?_⟩
    intro r
    constructor
    · intro hr
      exact Or.inl hr
    · intro hr
      rcases hr with hr | ⟨hr1, hr2, hr3⟩
      · exact hr
      · have := hcacheU (raw, result) hmem hr2 (by rw [hr3]; exact hr1)
        rw [hr3, hu] at this
        exact this
  | none =>
    by_cases hraw : raw = ""
    · have hmemo : mappable_memo st raw =
          ([], ⟨st.cache ++ [(raw, [])], st.unknown, st.warnings⟩) := by
        unfold mappable_memo mappable_call
        rw [hl, if_pos hraw]
        simp
      have hmap : mappableTitleAliasTypes raw = ([], raw) := by
        rw [hraw]
        exact mappable_empty
      rw [hmemo]
      refine ⟨by rw [hmap], ?_, ?_, hu, hnd, ?_⟩
      · intro p hp
        rcases List.mem_append.mp hp with hp | hp
        · exact hcache p hp
        · simp at hp
          rw [hp, hmap]
      · intro p hp h1 h2
        rcases List.mem_append.mp hp with hp | hp
        · exact hcacheU p hp h1 h2
        · simp at hp
          rw [hp] at h1
          exact absurd hraw h1
      · intro r
        constructor
        · intro hr
          exact Or.inl hr
        · intro hr
          rcases hr with hr | ⟨_, hr2, _⟩
          · exact hr
          · exact absurd hraw hr2
    · by_cases hcond : (mappableTitleAliasTypes raw).2 ≠ ""
          ∧ (mappableTitleAliasTypes raw).2 ∉ st.unknown
      · have hmemo : mappable_memo st raw =
            ((mappableTitleAliasTypes raw).1,
              ⟨st.cache ++ [(raw, (mappableTitleAliasTypes raw).1)],
                st.unknown ++ [(mappableTitleAliasTypes raw).2],
                st.warnings ++ [(mappableTitleAliasTypes raw).2]⟩) := by
          unfold mappable_memo mappable_call
          rw [hl, if_neg hraw, if_pos hcond]
          simp [Option.toList]
        rw [hmemo]
        refine ⟨rfl, ?_, ?_, by rw [hu], ?_, ?_⟩
        · intro p hp
          rcases List.mem_append.mp hp with hp | hp
          · exact hcache p hp
          · simp at hp
            rw [hp]
        · intro p hp h1 h2
          rcases List.mem_append.mp hp with hp | hp
          · exact List.mem_append_left _ (hcacheU p hp h1 h2)
          · simp at hp
            rw [hp]
            simp
        · rw [List.nodup_append]
          refine ⟨hnd, List.nodup_singleton _, ?_⟩
          intro a ha hb
          simp at hb
          rw [hb] at ha
          rw [← hu] at ha
          exact hcond.2 ha
        · intro r
          simp only [List.mem_append, List.mem_singleton]
          constructor
          · intro hr
            rcases hr with hr | hr
            · exact Or.inl hr
            · exact Or.inr ⟨hr ▸ hcond.1, hraw, hr.symm⟩
          · intro hr
            rcases hr with hr | ⟨_, _, hr3⟩
            · exact Or.inl hr
            · exact Or.inr hr3.symm
      · have hmemo : mappable_memo st raw =
            ((mappableTitleAliasTypes raw).1,
              ⟨st.cache ++ [(raw, (mappableTitleAliasTypes raw).1)],
                st.unknown, st.warnings⟩) := by
          unfold mappable_memo mappable_call
          rw [hl, if_neg hraw, if_neg hcond]
          simp [Option.toList]
        rw [hmemo]
        refine ⟨rfl, ?_, ?_, hu, hnd, ?_⟩
        · intro p hp
          rcases List.mem_append.mp hp with hp | hp
          · exact hcache p hp
          · simp at hp
            rw [hp]
        · intro p hp h1 h2
          rcases List.mem_append.mp hp with hp | hp
          · exact hcacheU p hp h1 h2
          · simp at hp
            rw [hp] at h2 ⊢
            rcases Decidable.not_and_iff_or_not.mp hcond with hc | hc
            · exact absurd h2 (by simpa using hc)
            · simpa using hc
        · intro r
          constructor
          · intro hr
            exact Or.inl hr
          · intro hr
            rcases hr with hr | ⟨hr1, _, hr3⟩
            · exact hr
            · rcases Decidable.not_and_iff_or_not.mp hcond with hc | hc
              · exact absurd (hr3 ▸ hr1) (by simpa using hc)
              · have hmem : (mappableTitleAliasTypes raw).2 ∈ st.unknown := by
                  simpa using hc
                rw [hr3, hu] at hmem
                exact hmem

theorem runAliasTypeCalls_spec (raws : List String) (st : AliasTypeState)
    (hcache : ∀ p ∈ st.cache, p.2 = (mappableTitleAliasTypes p.1).1)
    (hcacheU : ∀ p ∈ st.cache, p.1 ≠ "" → (mappableTitleAliasTypes p.1).2 ≠ "" →
      (mappableTitleAliasTypes p.1).2 ∈ st.unknown)
    (hu : st.unknown = st.warnings) (hnd : st.warnings.Nodup) :
    (runAliasTypeCalls st raws).1
        = raws.map (fun raw => (mappableTitleAliasTypes raw).1)
    ∧ (runAliasTypeCalls st raws).2.unknown = (runAliasTypeCalls st raws).2.warnings
    ∧ (runAliasTypeCalls st raws).2.warnings.Nodup
    ∧ (∀ r, r ∈ (runAliasTypeCalls st raws).2.warnings ↔
        r ∈ st.warnings ∨
          (r ≠ "" ∧ ∃ raw ∈ raws, raw ≠ "" ∧ (mappableTitleAliasTypes raw).2 = r)) := by
  induction raws generalizing st with
  | nil =>
    refine ⟨rfl, hu, hnd, ?_⟩
    intro r
    simp [runAliasTypeCalls]
  | cons raw rest ih =>
    have hm := mappable_memo_spec st raw hcache hcacheU hu hnd
    have hrec := ih (mappable_memo st raw).2 hm.2.1 hm.2.2.1 hm.2.2.2.1 hm.2.2.2.2.1
    have hrun : runAliasTypeCalls st (raw :: rest)
        = ((mappable_memo st raw).1 :: (runAliasTypeCalls (mappable_memo st raw).2 rest).1,
           (runAliasTypeCalls (mappable_memo st raw).2 rest).2) := rfl
    rw [hrun]
    refine ⟨?_, hrec.2.1, hrec.2.2.1, ?_⟩
    · rw [List.map_cons, hm.1, hrec.1]
    · intro r
      rw [hrec.2.2.2 r]
      rw [hm.2.2.2.2.2 r]
      constructor
      · intro h
        rcases h with (h | ⟨h1, h2, h3⟩) | ⟨h1, raw', hraw', h2, h3⟩
        · exact Or.inl h
        · exact Or.inr ⟨h1, raw, List.mem_cons_self raw rest, h2, h3⟩
        · exact Or.inr ⟨h1, raw', List.mem_cons_of_mem raw hraw', h2, h3⟩
      · intro h
        rcases h with h | ⟨h1, raw', hraw', h2, h3⟩
        · exact Or.inl (Or.inl h)
        · rcases List.mem_cons.mp hraw' with heq | hmem
          · exact Or.inl (Or.inr ⟨h1, heq ▸ h2, heq ▸ h3⟩)
          · exact Or.inr ⟨h1, raw', hmem, h2, h3⟩

/-- C6: `mappable_title_alias_types` greedily matches the enumerated
tags in their fixed order, so the returned tag sequence is a
subsequence of `IMDB_TITLE_ALIAS_TYPES`; across the calls made by one
`build_title_alias_to_title_alias_type_table` run (memo cache and
unknown-types set threaded from empty), each call's output is a
function of the raw string alone, a residual is warned about exactly
once per distinct non-empty residual (the warning list has no
duplicates and coincides with the final unknown-types set), and a
residual is warned about iff some non-empty raw input leaves it. -/
theorem C6_mappable_title_alias_types (raws : List String) :
    ((runAliasTypeCalls ⟨[], [], []⟩ raws).1
        = raws.map (fun raw => (mappableTitleAliasTypes raw).1))
    ∧ (∀ raw, (mappableTitleAliasTypes raw).1.Sublist IMDB_TITLE_ALIAS_TYPES)
    ∧ ((runAliasTypeCalls ⟨[], [], []⟩ raws).2.unknown
        = (runAliasTypeCalls ⟨[], [], []⟩ raws).2.warnings)
    ∧ (runAliasTypeCalls ⟨[], [], []⟩ raws).2.warnings.Nodup
    ∧ (∀ r, r ∈ (runAliasTypeCalls ⟨[], [], []⟩ raws).2.warnings ↔
        (r ≠ "" ∧ ∃ raw ∈ raws, raw ≠ "" ∧ (mappableTitleAliasTypes raw).2 = r)) := by
  have h := runAliasTypeCalls_spec raws ⟨[], [], []⟩
    (by intro p hp; cases hp) (by intro p hp; cases hp) rfl List.nodup_nil
  refine ⟨h.1, fun raw => mappable_sublist raw, h.2.1, h.2.2.1, ?_⟩
  intro r
  rw [h.2.2.2 r]
  simp

/-- Lexicographic code-point comparison on character lists, modelling
Python string comparison. -/
def lexLe : List Char → List Char → Bool
  | [], _ => true
  | _ :: _, [] => false
  | a :: as, b :: bs => if a = b then lexLe as bs else decide (a < b)

def insertSorted (x : String) : List String → List String
  | [] => [x]
  | y :: ys => if lexLe x.toList y.toList then x :: y :: ys else y :: insertSorted x ys

/-- Model of Python `sorted()` on strings (ascending by code point), as
insertion sort. -/
def pySorted (l : List String) : List String := l.foldr insertSorted []

/-- Embedding of `Database._build_key_table_from_values` (`database.py`
lines 505-510): the key-table rows `(id, name)` inserted for the given
values, sorted ascending, with the database-assigned surrogate ids
equal to the 1-based insertion position (spec section 4.6.1). -/
def build_key_table_from_values (values : List String) : List (Nat × String) :=
  List.enumFrom 1 (pySorted values)

/-- The `name -> id` map `_natural_key_to_id_map` reads back from a key
table built from the given values. -/
def keyTableNameToIdMap (values : List String) : List (String × Nat) :=
  (build_key_table_from_values values).map (fun p => (p.2, p.1))

/-- Rows emitted for one source row by
`Database.build_title_alias_to_title_alias_type_table` (`database.py`
lines 939-949): the matched tags of `mappable_title_alias_types`,
enumerated with 1-based ordering, each resolved through the
`title_alias_type` name-to-id map (`none` models the `KeyError` of a
missing name, which cannot occur for the enumerated tags). -/
def build_title_alias_to_title_alias_type_rows (typeMap : List (String × Nat))
    (titleAliasId : Nat) (rawTypes : String) : Option (List RelRow) :=
  (List.enumFrom 1 (mappableTitleAliasTypes rawTypes).1).mapM
    (fun p => (alookup p.2 typeMap).map (fun tid => RelRow.mk titleAliasId p.1 tid))

/-- C7 counterexample: for a `title_akas` row with
`types = "imdbDisplay original garbage"` and the canonical
`title_alias_type` table (ids 1..8 in sorted name order, so
`imdbDisplay = 4` and `original = 5`), the build emits
`ordering=1 -> original` and `ordering=2 -> imdbDisplay` - not
`ordering=1 -> imdbDisplay, ordering=2 -> original` as the claim
states, because `original` precedes `imdbDisplay` in the fixed
enumerated tag order. -/
theorem C7_counterexample :
    alookup "original" (keyTableNameToIdMap IMDB_TITLE_ALIAS_TYPES) = some 5
    ∧ alookup "imdbDisplay" (keyTableNameToIdMap IMDB_TITLE_ALIAS_TYPES) = some 4
    ∧ build_title_alias_to_title_alias_type_rows
        (keyTableNameToIdMap IMDB_TITLE_ALIAS_TYPES) 1 "imdbDisplay original garbage"
      = some [⟨1, 1, 5⟩, ⟨1, 2, 4⟩]
    ∧ ¬(build_title_alias_to_title_alias_type_rows
        (keyTableNameToIdMap IMDB_TITLE_ALIAS_TYPES) 1 "imdbDisplay original garbage"
      = some [⟨1, 1, 4⟩, ⟨1, 2, 5⟩]) := by
  refine ⟨rfl, rfl, rfl, ?_⟩
  intro h
  have h0 : build_title_alias_to_title_alias_type_rows
      (keyTableNameToIdMap IMDB_TITLE_ALIAS_TYPES) 1 "imdbDisplay original garbage"
      = some [⟨1, 1, 5⟩, ⟨1, 2, 4⟩] := rfl
  rw [h0] at h
  injection h with h
  injection h with h1 h2
  injection h1 with ha hb hc
  exact absurd hc (by decide)

/-- C7 (amended): for the `title_akas` row with
`types = "imdbDisplay original garbage"`, the build produces exactly
two rows for that alias, `ordering=1` pointing at the `original` entry
(id 5) and `ordering=2` pointing at the `imdbDisplay` entry (id 4) of
`title_alias_type` - the tags come out in the fixed enumerated order,
where `original` precedes `imdbDisplay`; the unknown-types set contains
the residual `"  garbage"` (two leading spaces), and a single warning
is recorded for it, also across repeated calls. -/
theorem C7_amended_alias_type_rows :
    alookup "original" (keyTableNameToIdMap IMDB_TITLE_ALIAS_TYPES) = some 5
    ∧ alookup "imdbDisplay" (keyTableNameToIdMap IMDB_TITLE_ALIAS_TYPES) = some 4
    ∧ build_title_alias_to_title_alias_type_rows
        (keyTableNameToIdMap IMDB_TITLE_ALIAS_TYPES) 1 "imdbDisplay original garbage"
      = some [⟨1, 1, 5⟩, ⟨1, 2, 4⟩]
    ∧ mappable_call [] "imdbDisplay original garbage"
      = (["original", "imdbDisplay"], ["  garbage"], some "  garbage")
    ∧ (runAliasTypeCalls ⟨[], [], []⟩
          ["imdbDisplay original garbage", "imdbDisplay original garbage"]).2.unknown
      = ["  garbage"]
    ∧ (runAliasTypeCalls ⟨[], [], []⟩
          ["imdbDisplay original garbage", "imdbDisplay original garbage"]).2.warnings
      = ["  garbage"] :=
  ⟨rfl, rfl, rfl, rfl, rfl, rfl⟩

instance {ε α : Type} [DecidableEq ε] [DecidableEq α] : DecidableEq (Except ε α) :=
  fun a b =>
  match a, b with
  | .error x, .error y =>
    if h : x = y then isTrue (by rw [h]) else isFalse (fun hh => h (by injection hh))
  | .ok x, .ok y =>
    if h : x = y then isTrue (by rw [h]) else isFalse (fun hh => h (by injection hh))
  | .error _, .ok _ => isFalse (fun hh => Except.noConfusion hh)
  | .ok _, .error _ => isFalse (fun hh => Except.noConfusion hh)

/-- Model of the `json.loads` results relevant here: a JSON array whose
elements are strings, or any other successfully parsed JSON value
(`nonList`).  The parse itself is passed to the embedded builders as a
function; `none` models a raised parse exception. -/
inductive PyJson where
  | list (items : List String)
  | nonList
deriving DecidableEq, Repr

/-- Message of the `PimdbError` for an unparseable JSON value
(`database.py` line 492), which embeds the raw value. -/
def jsonParseErrMsg (raw : String) : String := "cannot extract JSON from " ++ raw

/-- Message of the `PimdbError` for a JSON value that is not a list
(`database.py` line 494), which embeds the raw value. -/
def jsonNonListErrMsg (raw : String) : String :=
  "JSON column must be a list but is: " ++ raw

/-- Embedding of the value-collection loop of
`Database.build_key_table_from_query` (`database.py` lines 484-497):
`delimiter = none` adds each raw value; `delimiter = some "json"`
parses each value as a JSON list and adds its elements, raising a
`PimdbError` naming the raw value on parse failure or a non-list; any
other delimiter splits each value on it and adds the tokens. -/
def build_key_table_from_query (jsonLoads : String → Option PyJson)
    (delimiter : Option String) (values : Finset String) :
    List String → Except PyErr (Finset String)
  | [] => .ok values
  | raw :: rest =>
    match delimiter with
    | none => build_key_table_from_query jsonLoads delimiter (insert raw values) rest
    | some d =>
      if d = "json" then
        match jsonLoads raw with
        | none => .error (.pimdbError (jsonParseErrMsg raw))
        | some .nonList => .error (.pimdbError (jsonNonListErrMsg raw))
        | some (.list items) =>
          build_key_table_from_query jsonLoads delimiter (values ∪ items.toFinset) rest
      else
        build_key_table_from_query jsonLoads delimiter
          (values ∪ (pySplit raw d).toFinset) rest

theorem bkq_json_spec (jsonLoads : String → Option PyJson) (raws : List String)
    (acc : Finset String) :
    ((∃ e, build_key_table_from_query jsonLoads (some "json") acc raws = .error e) ↔
      ∃ raw ∈ raws, jsonLoads raw = none ∨ jsonLoads raw = some .nonList)
    ∧ (∀ m, build_key_table_from_query jsonLoads (some "json") acc raws
          = .error (.pimdbError m) →
        ∃ raw ∈ raws, (jsonLoads raw = none ∧ m = jsonParseErrMsg raw)
          ∨ (jsonLoads raw = some .nonList ∧ m = jsonNonListErrMsg raw))
    ∧ ((∀ raw ∈ raws, ∃ items, jsonLoads raw = some (.list items)) →
        ∃ s, build_key_table_from_query jsonLoads (some "json") acc raws = .ok s
          ∧ ∀ x, x ∈ s ↔ x ∈ acc ∨
              ∃ raw ∈ raws, ∃ items, jsonLoads raw = some (.list items) ∧ x ∈ items) := by
  induction raws generalizing acc with
  | nil =>
    refine ⟨by simp [build_key_table_from_query], ?_, ?_⟩
    · intro m h
      exact absurd h (by simp [build_key_table_from_query])
    · intro _
      exact ⟨acc, rfl, fun x => by simp⟩
  | cons raw rest ih =>
    cases hj : jsonLoads raw with
    | none =>
      have hthis : build_key_table_from_query jsonLoads (some "json") acc (raw :: rest)
          = .error (.pimdbError (jsonParseErrMsg raw)) := by
        conv_lhs => unfold build_key_table_from_query
        simp [hj]
      refine ⟨?_, ?_, ?_⟩
      · rw [hthis]
        constructor
        · intro _
          exact ⟨raw, List.mem_cons_self _ _, Or.inl hj⟩
        · intro _
          exact ⟨_, rfl⟩
      · intro m h
        rw [hthis] at h
        injection h with h'
        injection h' with h''
        exact ⟨raw, List.mem_cons_self _ _, Or.inl ⟨hj, h''.symm⟩⟩
      · intro hgood
        obtain ⟨items, hitems⟩ := hgood raw (List.mem_cons_self _ _)
        rw [hj] at hitems
        exact Option.noConfusion hitems
    | some pj =>
      cases pj with
      | nonList =>
        have hthis : build_key_table_from_query jsonLoads (some "json") acc (raw :: rest)
            = .error (.pimdbError (jsonNonListErrMsg raw)) := by
          conv_lhs => unfold build_key_table_from_query
          simp [hj]
        refine ⟨?_, ?_, ?_⟩
        · rw [hthis]
          constructor
          · intro _
            exact ⟨raw, List.mem_cons_self _ _, Or.inr hj⟩
          · intro _
            exact ⟨_, rfl⟩
        · intro m h
          rw [hthis] at h
          injection h with h'
          injection h' with h''
          exact ⟨raw, List.mem_cons_self _ _, Or.inr ⟨hj, h''.symm⟩⟩
        · intro hgood
          obtain ⟨items, hitems⟩ := hgood raw (List.mem_cons_self _ _)
          rw [hj] at hitems
          injection hitems with hitems
          exact PyJson.noConfusion hitems
      | list items =>
        have hthis : build_key_table_from_query jsonLoads (some "json") acc (raw :: rest)
            = build_key_table_from_query jsonLoads (some "json")
                (acc ∪ items.toFinset) rest := by
          conv_lhs => unfold build_key_table_from_query
          simp [hj]
        obtain ⟨ih1, ih2, ih3⟩ := ih (acc ∪ items.toFinset)
        refine ⟨?_, ?_, ?_⟩
        · rw [hthis, ih1]
          constructor
          · rintro ⟨raw', hraw', hbad⟩
            exact ⟨raw', List.mem_cons_of_mem _ hraw', hbad⟩
          · rintro ⟨raw', hraw', hbad⟩
            rcases List.mem_cons.mp hraw' with heq | hmem
            · subst heq
              rw [hj] at hbad
              rcases hbad with h | h
              · exact Option.noConfusion h
              · injection h with h
                exact PyJson.noConfusion h
            · exact ⟨raw', hmem, hbad⟩
        · intro m h
          rw [hthis] at h
          obtain ⟨raw', hraw', hcase⟩ := ih2 m h
          exact ⟨raw', List.mem_cons_of_mem _ hraw', hcase⟩
        · intro hgood
          obtain ⟨s, hs, hmem⟩ := ih3 (fun r hr => hgood r (List.mem_cons_of_mem _ hr))
          refine ⟨s, by rw [hthis]; exact hs, ?_⟩
          intro x
          rw [hmem x]
          constructor
          · intro hx
            rcases hx with hx | ⟨raw', hraw', items', hj', hx⟩
            · rcases Finset.mem_union.mp hx with hx | hx
              · exact Or.inl hx
              · exact Or.inr ⟨raw, List.mem_cons_self _ _, items, hj,
                  List.mem_toFinset.mp hx⟩
            · exact Or.inr ⟨raw', List.mem_cons_of_mem _ hraw', items', hj', hx⟩
          · intro hx
            rcases hx with hx | ⟨raw', hraw', items', hj', hx⟩
            · exact Or.inl (Finset.mem_union_left _ hx)
            · rcases List.mem_cons.mp hraw' with heq | hmem
              · subst heq
                rw [hj] at hj'
                injection hj' with hj'
                injection hj' with hj'
                exact Or.inl (Finset.mem_union_right _
                  (List.mem_toFinset.mpr (hj' ▸ hx)))
              · exact Or.inr ⟨raw', hmem, items', hj', hx⟩

theorem bkq_delim_spec (jsonLoads : String → Option PyJson) (d : String)
    (hd : d ≠ "json") (raws : List String) (acc : Finset String) :
    ∃ s, build_key_table_from_query jsonLoads (some d) acc raws = .ok s
      ∧ ∀ x, x ∈ s ↔ x ∈ acc ∨ ∃ raw ∈ raws, x ∈ pySplit raw d := by
  induction raws generalizing acc with
  | nil => exact ⟨acc, rfl, fun x => by simp⟩
  | cons raw rest ih =>
    have hthis : build_key_table_from_query jsonLoads (some d) acc (raw :: rest)
        = build_key_table_from_query jsonLoads (some d)
            (acc ∪ (pySplit raw d).toFinset) rest := by
      conv_lhs => unfold build_key_table_from_query
      simp [hd]
    obtain ⟨s, hs, hmem⟩ := ih (acc ∪ (pySplit raw d).toFinset)
    refine ⟨s, by rw [hthis]; exact hs, ?_⟩
    intro x
    rw [hmem x]
    constructor
    · intro hx
      rcases hx with hx | ⟨raw', hraw', hx⟩
      · rcases Finset.mem_union.mp hx with hx | hx
        · exact Or.inl hx
        · exact Or.inr ⟨raw, List.mem_cons_self _ _, List.mem_toFinset.mp hx⟩
      · exact Or.inr ⟨raw', List.mem_cons_of_mem _ hraw', hx⟩
    · intro hx
      rcases hx with hx | ⟨raw', hraw', hx⟩
      · exact Or.inl (Finset.mem_union_left _ hx)
      · rcases List.mem_cons.mp hraw' with heq | hmem'
        · exact Or.inl (Finset.mem_union_right _ (List.mem_toFinset.mpr (heq ▸ hx)))
        · exact Or.inr ⟨raw', hmem', hx⟩

theorem bkq_none_spec (jsonLoads : String → Option PyJson) (raws : List String)
    (acc : Finset String) :
    ∃ s, build_key_table_from_query jsonLoads none acc raws = .ok s
      ∧ ∀ x, x ∈ s ↔ x ∈ acc ∨ x ∈ raws := by
  induction raws generalizing acc with
  | nil => exact ⟨acc, rfl, fun x => by simp⟩
  | cons raw rest ih =>
    have hthis : build_key_table_from_query jsonLoads none acc (raw :: rest)
        = build_key_table_from_query jsonLoads none (insert raw acc) rest := by
      conv_lhs => unfold build_key_table_from_query
    obtain ⟨s, hs, hmem⟩ := ih (insert raw acc)
    refine ⟨s, by rw [hthis]; exact hs, ?_⟩
    intro x
    rw [hmem x]
    constructor
    · intro hx
      rcases hx with hx | hx
      · rcases Finset.mem_insert.mp hx with hx | hx
        · exact Or.inr (hx ▸ List.mem_cons_self _ _)
        · exact Or.inl hx
      · exact Or.inr (List.mem_cons_of_mem _ hx)
    · intro hx
      rcases hx with hx | hx
      · exact Or.inl (Finset.mem_insert_of_mem hx)
      · rcases List.mem_cons.mp hx with heq | hmem'
        · exact Or.inl (heq ▸ Finset.mem_insert_self _ _)
        · exact Or.inr hmem'

/-- C8: with delimiter mode `"json"`, `build_key_table_from_query`
raises a fatal `PimdbError` identifying the raw value iff some queried
value fails to parse as JSON or parses to a non-array; otherwise the
key set is exactly the union of the string elements of all the JSON
arrays; with a literal delimiter the key set is the union of the split
tokens, and with no delimiter it is the set of the raw values
themselves. -/
theorem C8_build_key_table_from_query (jsonLoads : String → Option PyJson)
    (raws : List String) :
    ((∃ e, build_key_table_from_query jsonLoads (some "json") ∅ raws = .error e) ↔
      ∃ raw ∈ raws, jsonLoads raw = none ∨ jsonLoads raw = some .nonList)
    ∧ (∀ m, build_key_table_from_query jsonLoads (some "json") ∅ raws
          = .error (.pimdbError m) →
        ∃ raw ∈ raws, (jsonLoads raw = none ∧ m = jsonParseErrMsg raw)
          ∨ (jsonLoads raw = some .nonList ∧ m = jsonNonListErrMsg raw))
    ∧ ((∀ raw ∈ raws, ∃ items, jsonLoads raw = some (.list items)) →
        ∃ s, build_key_table_from_query jsonLoads (some "json") ∅ raws = .ok s
          ∧ ∀ x, x ∈ s ↔
              ∃ raw ∈ raws, ∃ items, jsonLoads raw = some (.list items) ∧ x ∈ items)
    ∧ (∀ d, d ≠ "json" →
        ∃ s, build_key_table_from_query jsonLoads (some d) ∅ raws = .ok s
          ∧ ∀ x, x ∈ s ↔ ∃ raw ∈ raws, x ∈ pySplit raw d)
    ∧ (∃ s, build_key_table_from_query jsonLoads none ∅ raws = .ok s
        ∧ ∀ x, x ∈ s ↔ x ∈ raws) := by
  obtain ⟨h1, h2, h3⟩ := bkq_json_spec jsonLoads raws ∅
  refine ⟨h1, h2, ?_, ?_, ?_⟩
  · intro hgood
    obtain ⟨s, hs, hmem⟩ := h3 hgood
    refine ⟨s, hs, ?_⟩
    intro x
    rw [hmem x]
    simp
  · intro d hd
    obtain ⟨s, hs, hmem⟩ := bkq_delim_spec jsonLoads d hd raws ∅
    refine ⟨s, hs, ?_⟩
    intro x
    rw [hmem x]
    simp
  · obtain ⟨s, hs, hmem⟩ := bkq_none_spec jsonLoads raws ∅
    refine ⟨s, hs, ?_⟩
    intro x
    rw [hmem x]
    simp

/-- Concrete `json.loads` table for the specification's JSON-split
example. -/
def jsonLoadsAliceBob : String → Option PyJson := fun s =>
  if s = "[\"Alice\",\"Bob\"]" then some (.list ["Alice", "Bob"])
  else if s = "[\"Bob\",\"Carol\"]" then some (.list ["Bob", "Carol"])
  else none

/-- Witness for C8: the spec's JSON-split example yields the key set
`superset of Alice, Bob, Carol` exactly. -/
theorem C8_witness :
    (∃ s, build_key_table_from_query jsonLoadsAliceBob (some "json") ∅
        ["[\"Alice\",\"Bob\"]", "[\"Bob\",\"Carol\"]"] = .ok s
      ∧ ∀ x, x ∈ s ↔ ∃ raw ∈ ["[\"Alice\",\"Bob\"]", "[\"Bob\",\"Carol\"]"],
          ∃ items, jsonLoadsAliceBob raw = some (.list items) ∧ x ∈ items)
    ∧ build_key_table_from_query jsonLoadsAliceBob (some "json") ∅
        ["[\"Alice\",\"Bob\"]", "[\"Bob\",\"Carol\"]"]
      = .ok ({"Alice", "Bob", "Carol"} : Finset String) := by
  constructor
  · apply (C8_build_key_table_from_query jsonLoadsAliceBob _).2.2.1
    intro raw hraw
    simp only [List.mem_cons, List.not_mem_nil, or_false] at hraw
    rcases hraw with h | h
    · exact ⟨["Alice", "Bob"], by rw [h]; rfl⟩
    · exact ⟨["Bob", "Carol"], by rw [h]; rfl⟩
  · decide

/-- State of a `BulkInsert` (`database.py` lines 300-351): the
configured bound, the buffered rows (`_data`), the running row count
(`_count`), and the multi-row insert batches already executed against
the connection. -/
structure BulkInsert (α : Type) where
  bulk_size : Nat
  data : List α
  count : Nat
  sent : List (List α)
deriving DecidableEq, Repr

/-- A fresh `BulkInsert` (its `__init__`, which asserts
`bulk_size >= 1`). -/
def bulkInit (α : Type) (bulkSize : Nat) : BulkInsert α := ⟨bulkSize, [], 0, []⟩

/-- `BulkInsert._flush`: executes the buffer as one multi-row insert
and clears it (`database.py` lines 316-322). -/
def bulkFlush {α : Type} (s : BulkInsert α) : BulkInsert α :=
  ⟨s.bulk_size, [], s.count, s.sent ++ [s.data]⟩

/-- `BulkInsert.add` (`database.py` lines 310-314): append the row,
bump the count, flush when the buffer size reaches the bound. -/
def bulkAdd {α : Type} (s : BulkInsert α) (row : α) : BulkInsert α :=
  if (s.data ++ [row]).length ≥ s.bulk_size then
    bulkFlush ⟨s.bulk_size, s.data ++ [row], s.count + 1, s.sent⟩
  else ⟨s.bulk_size, s.data ++ [row], s.count + 1, s.sent⟩

/-- `BulkInsert.close` (`database.py` lines 332-344): flush any
residual buffer. -/
def bulkClose {α : Type} (s : BulkInsert α) : BulkInsert α :=
  if s.data.length ≥ 1 then bulkFlush s else s

/-- `BulkInsert.__exit__` (`database.py` lines 349-351): on normal
scope exit, close; when an error is propagating, do nothing. -/
def bulkScopeExit {α : Type} (isError : Bool) (s : BulkInsert α) : BulkInsert α :=
  if isError then s else bulkClose s

/-- The state after adding the given rows in order to a fresh
`BulkInsert` with bound `bulkSize`. -/
def runAdds {α : Type} (bulkSize : Nat) (rows : List α) : BulkInsert α :=
  rows.foldl bulkAdd (bulkInit α bulkSize)

/-- All rows sent to the database so far, in order. -/
def sentRows {α : Type} (s : BulkInsert α) : List α := s.sent.flatten

theorem bulkAdd_invariant {α : Type} (n : Nat) (hn : 1 ≤ n) (s : BulkInsert α)
    (row : α) (hsize : s.bulk_size = n) :
    (bulkAdd s row).bulk_size = n
    ∧ (bulkAdd s row).data.length < n
    ∧ sentRows (bulkAdd s row) ++ (bulkAdd s row).data = (sentRows s ++ s.data) ++ [row]
    ∧ (bulkAdd s row).count = s.count + 1 := by
  unfold bulkAdd
  by_cases h : (s.data ++ [row]).length ≥ s.bulk_size
  · rw [if_pos h]
    refine ⟨hsize, by simpa using hn, ?_, rfl⟩
    unfold bulkFlush sentRows
    simp
  · rw [if_neg h]
    rw [hsize] at h
    refine ⟨hsize, ?_, ?_, rfl⟩
    · simp only [List.length_append, List.length_cons, List.length_nil] at h ⊢
      omega
    · unfold sentRows
      simp

theorem runAdds_spec {α : Type} (n : Nat) (hn : 1 ≤ n) (rows : List α) :
    (runAdds n rows : BulkInsert α).bulk_size = n
    ∧ (runAdds n rows).data.length < n
    ∧ sentRows (runAdds n rows) ++ (runAdds n rows).data = rows
    ∧ (runAdds n rows).count = rows.length := by
  suffices h : ∀ (s : BulkInsert α), s.bulk_size = n → s.data.length < n →
      ∀ rs : List α, (rs.foldl bulkAdd s).bulk_size = n
        ∧ (rs.foldl bulkAdd s).data.length < n
        ∧ sentRows (rs.foldl bulkAdd s) ++ (rs.foldl bulkAdd s).data
            = (sentRows s ++ s.data) ++ rs
        ∧ (rs.foldl bulkAdd s).count = s.count + rs.length by
    have h0 := h (bulkInit α n) rfl (by simpa using hn) rows
    unfold runAdds
    simpa [bulkInit, sentRows] using h0
  intro s hsize hlen rs
  induction rs generalizing s with
  | nil =>
    refine ⟨hsize, hlen, by simp, by simp⟩
  | cons r rest ih =>
    have hstep := bulkAdd_invariant n hn s r hsize
    have hih := ih (bulkAdd s r) hstep.1 hstep.2.1
    rw [List.foldl_cons]
    refine ⟨hih.1, hih.2.1, ?_, ?_⟩
    · rw [hih.2.2.1, hstep.2.2.1]
      simp
    · rw [hih.2.2.2, hstep.2.2.2]
      simp only [List.length_cons]
      omega

/-- C9: for every `BulkInsert` with `bulk_size >= 1`: an `add` flushes
(one multi-row insert, buffer cleared) exactly when the buffer size
reaches the bound, so the buffer never holds `bulk_size` or more rows
after an `add` completes; a normal `close` flushes the residual buffer,
after which every added row has been sent in order and `count` equals
the number of `add` calls; and on abnormal scope exit the state is left
untouched, so the residual buffer rows (exactly the added rows not yet
flushed) are never sent. -/
theorem C9_BulkInsert_flush_discipline (α : Type) (n : Nat) (hn : 1 ≤ n)
    (rows : List α) :
    (∀ k, ((runAdds n (rows.take k) : BulkInsert α)).data.length < n)
    ∧ (∀ (s : BulkInsert α) (row : α), s.bulk_size = n →
        (s.data.length + 1 = n →
          (bulkAdd s row).sent = s.sent ++ [s.data ++ [row]]
          ∧ (bulkAdd s row).data = [])
        ∧ (s.data.length + 1 < n →
          (bulkAdd s row).sent = s.sent ∧ (bulkAdd s row).data = s.data ++ [row]))
    ∧ sentRows (bulkClose (runAdds n rows)) = rows
    ∧ (bulkClose (runAdds n rows) : BulkInsert α).data = []
    ∧ (bulkClose (runAdds n rows)).count = rows.length
    ∧ bulkScopeExit true (runAdds n rows) = runAdds n rows
    ∧ sentRows (runAdds n rows) ++ (runAdds n rows).data = rows := by
  have hspec := runAdds_spec n hn rows
  refine ⟨?_, ?_, ?_, ?_, ?_, rfl, hspec.2.2.1⟩
  · intro k
    exact (runAdds_spec n hn (rows.take k)).2.1
  · intro s row hsize
    constructor
    · intro hreach
      have h : (s.data ++ [row]).length ≥ s.bulk_size := by
        simp only [List.length_append, List.length_cons, List.length_nil]
        omega
      unfold bulkAdd
      rw [if_pos h]
      exact ⟨rfl, rfl⟩
    · intro hbelow
      have h : ¬((s.data ++ [row]).length ≥ s.bulk_size) := by
        simp only [List.length_append, List.length_cons, List.length_nil]
        omega
      unfold bulkAdd
      rw [if_neg h]
      exact ⟨rfl, rfl⟩
  · unfold bulkClose
    by_cases h : (runAdds n rows : BulkInsert α).data.length ≥ 1
    · rw [if_pos h]
      unfold bulkFlush sentRows
      simp only [List.flatten_append, List.flatten_cons, List.flatten_nil,
        List.append_nil]
      exact hspec.2.2.1
    · rw [if_neg h]
      have hdata : (runAdds n rows : BulkInsert α).data = [] := by
        cases hd : (runAdds n rows : BulkInsert α).data with
        | nil => rfl
        | cons a l =>
          rw [hd] at h
          simp at h
      have := hspec.2.2.1
      rw [hdata, List.append_nil] at this
      exact this
  · unfold bulkClose
    by_cases h : (runAdds n rows : BulkInsert α).data.length ≥ 1
    · rw [if_pos h]
      rfl
    · rw [if_neg h]
      cases hd : (runAdds n rows : BulkInsert α).data with
      | nil => rfl
      | cons a l =>
        rw [hd] at h
        simp at h
  · unfold bulkClose
    by_cases h : (runAdds n rows : BulkInsert α).data.length ≥ 1
    · rw [if_pos h]
      exact hspec.2.2.2
    · rw [if_neg h]
      exact hspec.2.2.2

/-- Witness for C9 with bound 2 and three added rows: the close flushes
the residual third row, and before the close exactly the first full
batch had been sent. -/
theorem C9_witness :
    sentRows (bulkClose (runAdds 2 [10, 20, 30])) = [10, 20, 30]
    ∧ (bulkClose (runAdds 2 [10, 20, 30])).count = 3
    ∧ (runAdds 2 [10, 20, 30] : BulkInsert Nat).sent = [[10, 20]]
    ∧ (runAdds 2 [10, 20, 30] : BulkInsert Nat).data = [30] := by
  have h := C9_BulkInsert_flush_discipline Nat 2 (by decide) [10, 20, 30]
  exact ⟨h.2.2.1, h.2.2.2.2.1, rfl, rfl⟩

/-- One `characters_to_character` row: the raw JSON literal, the
1-based array position, and the assigned character id. -/
structure CharsToCharRow where
  characters : String
  ordering : Nat
  character_id : Nat
deriving DecidableEq, Repr

/-- Message of the `PimdbError` for an unparseable
`title_principals.characters` value (`database.py` lines 590-593). -/
def charactersParseErrMsg (raw : String) : String :=
  "cannot JSON parse title_principals.characters: " ++ raw

/-- Message of the `PimdbError` for a `characters` value that is not a
JSON list (`database.py` lines 595-598). -/
def charactersNonListErrMsg (raw : String) : String :=
  "title_principals.characters must be a JSON list but is: " ++ raw

/-- Inner name loop of
`build_characters_to_character_and_character_table` (`database.py`
lines 599-605): walk the decoded names with 1-based `enumerate`,
look each up in the name-to-id map, assign `character_count + 1` to a
name seen for the first time, and emit one row per name. -/
def internNames (chars : String) :
    Nat → List (String × Nat) → Nat → List String →
    (Nat × List (String × Nat)) × List CharsToCharRow
  | cnt, m, _, [] => ((cnt, m), [])
  | cnt, m, ordering, name :: rest =>
    match alookup name m with
    | some cid =>
      ((internNames chars cnt m (ordering + 1) rest).1,
        ⟨chars, ordering, cid⟩ :: (internNames chars cnt m (ordering + 1) rest).2)
    | none =>
      ((internNames chars (cnt + 1) (m ++ [(name, cnt + 1)]) (ordering + 1) rest).1,
        ⟨chars, ordering, cnt + 1⟩ ::
          (internNames chars (cnt + 1) (m ++ [(name, cnt + 1)]) (ordering + 1) rest).2)

/-- Outer loop of
`build_characters_to_character_and_character_table` (`database.py`
lines 586-605) over the distinct non-null `characters` values: decode
each as JSON (a parse failure or non-list raises a `PimdbError` naming
the value), intern the names and collect the emitted rows. -/
def build_characters_to_character_rows (jsonLoads : String → Option PyJson) :
    Nat → List (String × Nat) → List String →
    Except PyErr ((Nat × List (String × Nat)) × List CharsToCharRow)
  | cnt, m, [] => .ok ((cnt, m), [])
  | cnt, m, chars :: rest =>
    match jsonLoads chars with
    | none => .error (.pimdbError (charactersParseErrMsg chars))
    | some .nonList => .error (.pimdbError (charactersNonListErrMsg chars))
    | some (.list names) =>
      match build_characters_to_character_rows jsonLoads
          (internNames chars cnt m 1 names).1.1
          (internNames chars cnt m 1 names).1.2 rest with
      | .error e => .error e
      | .ok (st, rows) => .ok (st, (internNames chars cnt m 1 names).2 ++ rows)

/-- The characters pipeline from its initial state (`database.py` lines
579-581): `character_count = 1` and the map holding the empty-string
sentinel with id 1. -/
def build_characters_pipeline (jsonLoads : String → Option PyJson)
    (values : List String) :
    Except PyErr ((Nat × List (String × Nat)) × List CharsToCharRow) :=
  build_characters_to_character_rows jsonLoads 1 [("", 1)] values

/-- Population of the `character` table (`database.py` lines 607-613):
one `(id, name)` row per entry of the name-to-id map, in insertion
order. -/
def build_character_rows (m : List (String × Nat)) : List (Nat × String) :=
  m.map (fun p => (p.2, p.1))

/-- The decoded name list of one `characters` value (empty for inputs
the pipeline rejects before reaching the name loop). -/
def decodedNames (jsonLoads : String → Option PyJson) (raw : String) : List String :=
  match jsonLoads raw with
  | some (.list names) => names
  | _ => []

/-- First-occurrence deduplication relative to an already-seen set. -/
def dedupFirst (seen : List String) : List String → List String
  | [] => []
  | x :: xs => if x ∈ seen then dedupFirst seen xs else x :: dedupFirst (x :: seen) xs

theorem alookup_append_of_some {β : Type} {k : String} {v : β}
    (l1 l2 : List (String × β)) (h : alookup k l1 = some v) :
    alookup k (l1 ++ l2) = some v := by
  induction l1 with
  | nil => exact Option.noConfusion h
  | cons p rest ih =>
    obtain ⟨k', v'⟩ := p
    rw [List.cons_append]
    simp only [alookup] at h ⊢
    by_cases hk : k = k'
    · rw [if_pos hk] at h ⊢
      exact h
    · rw [if_neg hk] at h ⊢
      exact ih h

theorem alookup_append_of_none {β : Type} {k : String}
    (l1 l2 : List (String × β)) (h : alookup k l1 = none) :
    alookup k (l1 ++ l2) = alookup k l2 := by
  induction l1 with
  | nil => rfl
  | cons p rest ih =>
    obtain ⟨k', v'⟩ := p
    rw [List.cons_append]
    simp only [alookup] at h ⊢
    by_cases hk : k = k'
    · rw [if_pos hk] at h
      exact Option.noConfusion h
    · rw [if_neg hk] at h ⊢
      exact ih h

theorem alookup_eq_none_iff {β : Type} (k : String) (m : List (String × β)) :
    alookup k m = none ↔ k ∉ m.map Prod.fst := by
  induction m with
  | nil => simp [alookup]
  | cons p rest ih =>
    obtain ⟨k', v'⟩ := p
    unfold alookup
    by_cases hk : k = k'
    · simp [hk]
    · simp [hk, ih]

theorem dedupFirst_congr (s t : List String) (h : ∀ a, a ∈ s ↔ a ∈ t)
    (l : List String) : dedupFirst s l = dedupFirst t l := by
  induction l generalizing s t with
  | nil => rfl
  | cons x xs ih =>
    unfold dedupFirst
    by_cases hx : x ∈ s
    · rw [if_pos hx, if_pos ((h x).mp hx)]
      exact ih s t h
    · rw [if_neg hx, if_neg (fun hc => hx ((h x).mpr hc))]
      rw [ih (x :: s) (x :: t) (fun a => by simp [h a])]

theorem dedupFirst_cons (seen : List String) (x : String) (xs : List String) :
    dedupFirst seen (x :: xs)
      = if x ∈ seen then dedupFirst seen xs else x :: dedupFirst (x :: seen) xs := rfl

theorem snd_mem_of_mem_enumFrom {α : Type} {x : Nat × α} {n : Nat} {l : List α}
    (h : x ∈ List.enumFrom n l) : x.2 ∈ l := by
  induction l generalizing n with
  | nil => cases h
  | cons a t ih =>
    rcases List.mem_cons.mp h with heq | hmem
    · rw [heq]
      exact List.mem_cons_self _ _
    · exact List.mem_cons_of_mem _ (ih hmem)

theorem internNames_spec (chars : String) (cnt : Nat) (m : List (String × Nat))
    (o : Nat) (names : List String)
    (hcnt : cnt = m.length) (hids : m.map Prod.snd = List.range' 1 m.length) :
    ∃ ext : List (String × Nat),
      (internNames chars cnt m o names).1.2 = m ++ ext
      ∧ (internNames chars cnt m o names).1.1
          = (internNames chars cnt m o names).1.2.length
      ∧ (internNames chars cnt m o names).1.2.map Prod.snd
          = List.range' 1 (internNames chars cnt m o names).1.2.length
      ∧ (internNames chars cnt m o names).1.2.map Prod.fst
          = m.map Prod.fst ++ dedupFirst (m.map Prod.fst) names
      ∧ (∀ name ∈ names, (alookup name (internNames chars cnt m o names).1.2).isSome)
      ∧ (internNames chars cnt m o names).2
          = (List.enumFrom o names).map (fun p =>
              ⟨chars, p.1, (alookup p.2 (internNames chars cnt m o names).1.2).getD 0⟩) := by
  induction names generalizing cnt m o with
  | nil =>
    refine ⟨[], by simp [internNames], ?_, ?_, ?_, ?_, ?_⟩
    · simpa [internNames] using hcnt
    · simpa [internNames] using hids
    · simp [internNames, dedupFirst]
    · simp
    · simp [internNames]
  | cons name rest ih =>
    cases hl : alookup name m with
    | some cid =>
      have hstep : internNames chars cnt m o (name :: rest)
          = ((internNames chars cnt m (o + 1) rest).1,
            ⟨chars, o, cid⟩ :: (internNames chars cnt m (o + 1) rest).2) := by
        conv_lhs => unfold internNames
        simp [hl]
      obtain ⟨ext, hext, hlen, hids', hfst, hsome, hrows⟩ := ih cnt m (o + 1) hcnt hids
      rw [hstep]
      have hnamemem : name ∈ m.map Prod.fst := by
        by_contra hc
        rw [← alookup_eq_none_iff name m] at hc
        rw [hl] at hc
        exact Option.noConfusion hc
      refine ⟨ext, hext, hlen, hids', ?_, ?_, ?_⟩
      · rw [hfst, dedupFirst_cons, if_pos hnamemem]
      · intro nm hnm
        rcases List.mem_cons.mp hnm with heq | hmem
        · subst heq
          rw [hext, alookup_append_of_some m ext hl]
          rfl
        · exact hsome nm hmem
      · have hid : (alookup name (internNames chars cnt m (o + 1) rest).1.2).getD 0
            = cid := by
          rw [hext, alookup_append_of_some m ext hl]
          rfl
        simp only [List.enumFrom, List.map_cons]
        rw [hrows, hid]
    | none =>
      have hm1cnt : cnt + 1 = (m ++ [(name, cnt + 1)]).length := by
        simp [← hcnt]
      have hm1ids : (m ++ [(name, cnt + 1)]).map Prod.snd
          = List.range' 1 (m ++ [(name, cnt + 1)]).length := by
        rw [List.map_append, hids]
        simp only [List.length_append, List.length_cons, List.length_nil,
          List.map_cons, List.map_nil]
        rw [List.range'_concat]
        rw [hcnt]
        simp [Nat.add_comm]
      have hstep : internNames chars cnt m o (name :: rest)
          = ((internNames chars (cnt + 1) (m ++ [(name, cnt + 1)]) (o + 1) rest).1,
            ⟨chars, o, cnt + 1⟩ ::
              (internNames chars (cnt + 1) (m ++ [(name, cnt + 1)]) (o + 1) rest).2) := by
        conv_lhs => unfold internNames
        simp [hl]
      obtain ⟨ext2, hext, hlen, hids', hfst, hsome, hrows⟩ :=
        ih (cnt + 1) (m ++ [(name, cnt + 1)]) (o + 1) hm1cnt hm1ids
      rw [hstep]
      have hnotmem : name ∉ m.map Prod.fst := (alookup_eq_none_iff name m).mp hl
      have hlook1 : alookup name (m ++ [(name, cnt + 1)]) = some (cnt + 1) := by
        rw [alookup_append_of_none m _ hl]
        simp [alookup]
      refine ⟨(name, cnt + 1) :: ext2, by rw [hext]; simp, hlen, hids', ?_, ?_, ?_⟩
      · rw [hfst, dedupFirst_cons, if_neg hnotmem]
        rw [dedupFirst_congr (List.map Prod.fst (m ++ [(name, cnt + 1)]))
          (name :: m.map Prod.fst) (fun a => by simp; exact Or.comm) rest]
        simp
      · intro nm hnm
        rcases List.mem_cons.mp hnm with heq | hmem
        · subst heq
          rw [hext, alookup_append_of_some _ ext2 hlook1]
          rfl
        · exact hsome nm hmem
      · have hid : (alookup name
            (internNames chars (cnt + 1) (m ++ [(name, cnt + 1)]) (o + 1) rest).1.2).getD 0
            = cnt + 1 := by
          rw [hext, alookup_append_of_some _ ext2 hlook1]
          rfl
        simp only [List.enumFrom, List.map_cons]
        rw [hrows, hid]

theorem dedupFirst_append (seen l1 l2 : List String) :
    dedupFirst seen (l1 ++ l2)
      = dedupFirst seen l1 ++ dedupFirst (dedupFirst seen l1 ++ seen) l2 := by
  induction l1 generalizing seen with
  | nil => simp [dedupFirst]
  | cons x xs ih =>
    rw [List.cons_append, dedupFirst_cons, dedupFirst_cons]
    by_cases hx : x ∈ seen
    · rw [if_pos hx, if_pos hx, ih]
    · rw [if_neg hx, if_neg hx, ih (x :: seen), List.cons_append]
      rw [dedupFirst_congr (dedupFirst (x :: seen) xs ++ (x :: seen))
        ((x :: dedupFirst (x :: seen) xs) ++ seen) (fun a => by simp; tauto) l2]

theorem alookup_isSome_append {β : Type} (l1 l2 : List (String × β)) (k : String)
    (h : (alookup k l1).isSome) : (alookup k (l1 ++ l2)).isSome := by
  cases hl : alookup k l1 with
  | none =>
    rw [hl] at h
    exact Bool.noConfusion h
  | some v =>
    rw [alookup_append_of_some l1 l2 hl]
    rfl

theorem alookup_getD_append {β : Type} (l1 l2 : List (String × β)) (k : String)
    (d : β) (h : (alookup k l1).isSome) :
    (alookup k (l1 ++ l2)).getD d = (alookup k l1).getD d := by
  cases hl : alookup k l1 with
  | none =>
    rw [hl] at h
    exact Bool.noConfusion h
  | some v =>
    rw [alookup_append_of_some l1 l2 hl]

theorem build_chars_spec (jsonLoads : String → Option PyJson) (values : List String) :
    ∀ (cnt : Nat) (m : List (String × Nat)),
    cnt = m.length → m.map Prod.snd = List.range' 1 m.length →
    ∀ st rows, build_characters_to_character_rows jsonLoads cnt m values = .ok (st, rows) →
    ∃ ext, st.2 = m ++ ext
      ∧ st.1 = st.2.length
      ∧ st.2.map Prod.snd = List.range' 1 st.2.length
      ∧ st.2.map Prod.fst
          = m.map Prod.fst
            ++ dedupFirst (m.map Prod.fst) (values.flatMap (decodedNames jsonLoads))
      ∧ (∀ v ∈ values, ∀ name ∈ decodedNames jsonLoads v, (alookup name st.2).isSome)
      ∧ rows = values.flatMap (fun v =>
          (List.enumFrom 1 (decodedNames jsonLoads v)).map
            (fun p => ⟨v, p.1, (alookup p.2 st.2).getD 0⟩)) := by
  induction values with
  | nil =>
    intro cnt m hcnt hids st rows h
    unfold build_characters_to_character_rows at h
    injection h with h'
    injection h' with h1 h2
    refine ⟨[], ?_, ?_, ?_, ?_, ?_, ?_⟩
    · rw [← h1]
      simp
    · rw [← h1]
      simpa using hcnt
    · rw [← h1]
      simpa using hids
    · rw [← h1]
      simp [dedupFirst]
    · intro v hv
      cases hv
    · rw [← h2]
      simp
  | cons v rest ih =>
    intro cnt m hcnt hids st rows h
    cases hj : jsonLoads v with
    | none =>
      unfold build_characters_to_character_rows at h
      simp only [hj] at h
      exact Except.noConfusion h
    | some pj =>
      cases pj with
      | nonList =>
        unfold build_characters_to_character_rows at h
        simp only [hj] at h
        exact Except.noConfusion h
      | list names =>
        unfold build_characters_to_character_rows at h
        simp only [hj] at h
        obtain ⟨ext1, hext1, hlen1, hids1, hfst1, hsome1, hrows1⟩ :=
          internNames_spec v cnt m 1 names hcnt hids
        cases hr : build_characters_to_character_rows jsonLoads
            (internNames v cnt m 1 names).1.1 (internNames v cnt m 1 names).1.2 rest with
        | error e =>
          simp only [hr] at h
          exact Except.noConfusion h
        | ok strows =>
          obtain ⟨st', rows'⟩ := strows
          simp only [hr] at h
          injection h with h'
          injection h' with h1 h2
          subst h1
          obtain ⟨ext2, hext2, hlen2, hids2, hfst2, hsome2, hrows2⟩ :=
            ih (internNames v cnt m 1 names).1.1 (internNames v cnt m 1 names).1.2
              hlen1 hids1 st' rows' hr
          have hdec : decodedNames jsonLoads v = names := by
            unfold decodedNames
            rw [hj]
          refine ⟨ext1 ++ ext2, ?_, hlen2, hids2, ?_, ?_, ?_⟩
          · rw [hext2, hext1, List.append_assoc]
          · rw [hfst2, hfst1]
            rw [List.flatMap_cons, hdec, dedupFirst_append, List.append_assoc]
            rw [dedupFirst_congr
              (dedupFirst (List.map Prod.fst m) names ++ List.map Prod.fst m)
              (List.map Prod.fst m ++ dedupFirst (List.map Prod.fst m) names)
              (fun a => by simp; tauto) (rest.flatMap (decodedNames jsonLoads))]
          · intro v' hv' name hname
            rcases List.mem_cons.mp hv' with heq | hmem
            · subst heq
              rw [hdec] at hname
              rw [hext2]
              exact alookup_isSome_append _ ext2 name (hsome1 name hname)
            · exact hsome2 v' hmem name hname
          · rw [← h2, List.flatMap_cons, hrows2, hdec]
            congr 1
            rw [hrows1]
            apply List.map_congr_left
            intro p hp
            have hpmem : p.2 ∈ names := snd_mem_of_mem_enumFrom hp
            have hsomep := hsome1 p.2 hpmem
            have : (alookup p.2 st'.2).getD 0
                = (alookup p.2 (internNames v cnt m 1 names).1.2).getD 0 := by
              rw [hext2]
              exact alookup_getD_append _ ext2 p.2 0 hsomep
            rw [this]

/-- C5: in the characters pipeline, character id 1 is reserved for the
empty-string sentinel registered at initialization; every distinct
non-null `characters` value is decoded as a JSON array of strings;
names are interned in first-occurrence order with ids forming the dense
sequence `1..count` (so a name first seen gets the next id starting
from 2); one `characters_to_character` row is emitted per
`(characters literal, 1-based array position, character id)`; and the
`character` table holds exactly one `(id, name)` row per entry of the
name-to-id map, including the sentinel row `(1, "")`. -/
theorem C5_characters_pipeline (jsonLoads : String → Option PyJson)
    (values : List String) (cnt : Nat) (m : List (String × Nat))
    (rows : List CharsToCharRow)
    (h : build_characters_pipeline jsonLoads values = .ok ((cnt, m), rows)) :
    alookup "" m = some 1
    ∧ m.map Prod.fst = "" :: dedupFirst [""] (values.flatMap (decodedNames jsonLoads))
    ∧ m.map Prod.snd = List.range' 1 m.length
    ∧ cnt = m.length
    ∧ rows = values.flatMap (fun v =>
        (List.enumFrom 1 (decodedNames jsonLoads v)).map
          (fun p => ⟨v, p.1, (alookup p.2 m).getD 0⟩))
    ∧ build_character_rows m = m.map (fun p => (p.2, p.1))
    ∧ (1, "") ∈ build_character_rows m
    ∧ ((build_character_rows m).map Prod.fst).Nodup
    ∧ (build_character_rows m).length = m.length := by
  obtain ⟨ext, hext, hlen, hids, hfst, _, hrows⟩ :=
    build_chars_spec jsonLoads values 1 [("", 1)] rfl rfl ((cnt, m)) rows h
  simp only at hext hlen hids hfst hrows
  have hm : m = ("", 1) :: ext := by
    rw [hext]
    rfl
  refine ⟨?_, ?_, hids, hlen, hrows, rfl, ?_, ?_, by simp [build_character_rows]⟩
  · rw [hext]
    exact alookup_append_of_some [("", 1)] ext (by simp [alookup])
  · rw [hfst]
    rfl
  · rw [hm]
    unfold build_character_rows
    simp
  · unfold build_character_rows
    rw [List.map_map]
    have : (Prod.fst ∘ fun p : String × Nat => (p.2, p.1)) = Prod.snd := rfl
    rw [this, hids]
    exact List.nodup_range' _ _

/-- Concrete `json.loads` table for the C5 witness. -/
def jsonLoadsSelf : String → Option PyJson := fun s =>
  if s = "[\"Self\"]" then some (.list ["Self"])
  else if s = "[\"Alice\",\"Self\"]" then some (.list ["Alice", "Self"])
  else none

/-- Witness for C5 on two characters literals sharing the name `Self`:
the sentinel keeps id 1, `Self` gets id 2, `Alice` gets id 3, rows
carry dense per-literal orderings, and the character table has exactly
the three map entries. -/
theorem C5_witness :
    alookup "" [("", 1), ("Self", 2), ("Alice", 3)] = some 1
    ∧ List.map Prod.fst [("", 1), ("Self", 2), ("Alice", 3)]
        = "" :: dedupFirst [""]
            (["[\"Self\"]", "[\"Alice\",\"Self\"]"].flatMap (decodedNames jsonLoadsSelf))
    ∧ List.map Prod.snd [("", 1), ("Self", 2), ("Alice", 3)]
        = List.range' 1 ([("", 1), ("Self", 2), ("Alice", 3)] : List (String × Nat)).length
    ∧ (1, "") ∈ build_character_rows [("", 1), ("Self", 2), ("Alice", 3)]
    ∧ ((build_character_rows [("", 1), ("Self", 2), ("Alice", 3)]).map Prod.fst).Nodup := by
  have h := C5_characters_pipeline jsonLoadsSelf ["[\"Self\"]", "[\"Alice\",\"Self\"]"]
    3 [("", 1), ("Self", 2), ("Alice", 3)]
    [⟨"[\"Self\"]", 1, 2⟩, ⟨"[\"Alice\",\"Self\"]", 1, 3⟩, ⟨"[\"Alice\",\"Self\"]", 2, 2⟩]
    rfl
  exact ⟨h.1, h.2.1, h.2.2.1, h.2.2.2.2.2.2.1, h.2.2.2.2.2.2.2.1⟩
